import Mathlib

/-!
Verification development for the SDN node-side control plane.

The central object is the egress-IP watcher (`pkg/network/node/egressip.go`):
its two cross-referencing reactive maps (`nodesByNodeIP`/`nodesByEgressIP`
from HostSubnets, `namespacesByVNID`/`namespacesByEgressIP` from
NetNamespaces) and the reconciliation operations `updateNodeEgress`,
`maybeAddEgressIP`, `deleteEgressIP`, `updateNamespaceEgress`,
`deleteNamespaceEgress`, plus the local assignment mechanics
`assignEgressIP`/`releaseEgressIP` and the VNID-to-mark derivation
`getMarkForVNID`.  The master-side `watchNodes` handler of the subnet
controller (`ovssubnet` package) is embedded as well.

Embedding conventions:
* Go maps become association lists (`List (key × value)`); `alookup`,
  `aset`, `aerase` mirror map read, write and delete.
* Go string sets (`sets.String`) become duplicate-free `List String`
  values built by `mkSet`; `setInsert`, `setDelete`, `setDiff` mirror
  `Insert`, `Delete` and `Difference(...).UnsortedList()`.
* Pointers to `nodeEgress` / `namespaceEgress` records are represented by
  their immutable identifying key (the node IP, resp. the VNID): the code
  never changes `nodeEgress.nodeIP` or `namespaceEgress.vnid` after
  construction, so the key determines the pointed-to object, and the maps
  `nodesByEgressIP` / `namespacesByEgressIP` store that key.  An in-place
  mutation through a pointer becomes an `aset` at that key; a mutation of
  an object that was already removed from its owning map (which the Go
  code performs but never observes afterwards) becomes a no-op.
* The external flow/NAT backends are modelled by a trace of emitted
  calls; the kernel-free test mode of `assignEgressIP`/`releaseEgressIP`
  (the `testModeChan` branch, which the self-IP guards precede) provides
  the semantics of local assignment.
* `uint32` arithmetic is modelled on `Nat`; the operations appearing in
  `getMarkForVNID` (or, xor, and with operands below `2^32`) never
  overflow, so no reduction modulo `2^32` is needed.
-/

/-- Lookup in an association list, mirroring a Go map read. -/
def alookup {κ : Type} {α : Type} [DecidableEq κ] : List (κ × α) → κ → Option α
  | [], _ => none
  | (k, v) :: rest, key => if k = key then some v else alookup rest key

/-- Write to an association list, mirroring a Go map assignment:
replaces the value in place if the key is present, appends otherwise. -/
def aset {κ : Type} {α : Type} [DecidableEq κ] : List (κ × α) → κ → α → List (κ × α)
  | [], key, val => [(key, val)]
  | (k, v) :: rest, key, val =>
      if k = key then (key, val) :: rest else (k, v) :: aset rest key val

/-- Delete from an association list, mirroring a Go map delete. -/
def aerase {κ : Type} {α : Type} [DecidableEq κ] (l : List (κ × α)) (key : κ) : List (κ × α) :=
  l.filter (fun kv => ¬(kv.1 = key))

/-- `sets.NewString(l...)`: a set built from a list, keeping first occurrences. -/
def mkSet (l : List String) : List String :=
  l.foldl (fun acc ip => if ip ∈ acc then acc else acc ++ [ip]) []

/-- `set.Insert(x)`. -/
def setInsert (s : List String) (x : String) : List String :=
  if x ∈ s then s else s ++ [x]

/-- `set.Delete(x)`. -/
def setDelete (s : List String) (x : String) : List String :=
  s.filter (fun y => ¬(y = x))

/-- `a.Difference(b).UnsortedList()`: elements of `a` not in `b`. -/
def setDiff (a b : List String) : List String :=
  a.filter (fun x => ¬(x ∈ b))

/-- `nodeEgress`: per-node egress bookkeeping derived from its HostSubnet. -/
structure NodeEgress where
  nodeIP : String
  /-- `requestedIPs`: the EgressIPs listed on the node's HostSubnet. -/
  requestedIPs : List String
  /-- `assignedIPs`: the IPs actually in use on the node. -/
  assignedIPs : List String
deriving DecidableEq, Repr

/-- `namespaceEgress`: per-namespace egress bookkeeping from its NetNamespace. -/
structure NamespaceEgress where
  vnid : Nat
  /-- `requestedIP`: the egress IP it wants (`NetNamespace.EgressIPs[0]`). -/
  requestedIP : String
  /-- `assignedIP`: an egress IP actually in use on `nodeIP`. -/
  assignedIP : String
  nodeIP : String
deriving DecidableEq, Repr

/-- Calls made to the external backends: the OVS flow controller
(`SetNamespaceEgressViaEgressIP`, `SetNamespaceEgressNormal`,
`SetNamespaceEgressDropped`) and the test-mode tokens of
`assignEgressIP` (`claim`) and `releaseEgressIP` (`release`). -/
inductive BackendCall where
  | claimIP (ip : String)
  | releaseIP (ip : String)
  | setEgressViaIP (vnid : Nat) (nodeIP : String) (mark : String)
  | setEgressNormal (vnid : Nat)
  | setEgressDropped (vnid : Nat)
deriving DecidableEq, Repr

/-- The egress-IP watcher state (`egressIPWatcher`), with the backend-call
trace made explicit.  `nodesByEgressIP` and `namespacesByEgressIP` store the
identifying key of the claimant record (the node IP, resp. the VNID) in
place of the Go pointer. -/
structure EgressState where
  localIP : String
  masqueradeBit : Nat
  nodesByNodeIP : List (String × NodeEgress)
  nodesByEgressIP : List (String × String)
  namespacesByVNID : List (Nat × NamespaceEgress)
  namespacesByEgressIP : List (String × Nat)
  calls : List BackendCall
deriving DecidableEq, Repr

/-- `newEgressIPWatcher`: empty maps; `masqueradeBit` is `1 << b` when the
configuration supplies `b`, and `0` otherwise. -/
def newEgressIPWatcher (localIP : String) (masqueradeBit : Nat) : EgressState :=
  { localIP := localIP
    masqueradeBit := masqueradeBit
    nodesByNodeIP := []
    nodesByEgressIP := []
    namespacesByVNID := []
    namespacesByEgressIP := []
    calls := [] }

/-- One hexadecimal digit, lowercase (as produced by `%x`). -/
def hexChar (d : Nat) : Char :=
  if d < 10 then Char.ofNat (48 + d) else Char.ofNat (87 + d)

/-- The last `k` hexadecimal digits of `n`, zero-padded (as produced by `%0kx`). -/
def hexDigits : Nat → Nat → List Char
  | 0, _ => []
  | k + 1, n => hexDigits k (n / 16) ++ [hexChar (n % 16)]

/-- The second reassignment of `vnid` in `getMarkForVNID`: if the
masquerade bit is set in the value, perturb it with bit 24 and clear the
masquerade bit. -/
def markPerturb (w masqueradeBit : Nat) : Nat :=
  if w &&& masqueradeBit ≠ 0 then (w ||| 0x01000000) ^^^ masqueradeBit else w

/-- The numeric value of the mark computed by `getMarkForVNID`: convert
`vnid` to a value that is not 0, does not have `masqueradeBit` set, and
differs from the value returned for any other valid vnid.  The two steps
are the two sequential reassignments of `vnid` in the source. -/
def getMarkValue (vnid masqueradeBit : Nat) : Nat :=
  markPerturb (if vnid = 0 then 0xff000000 else vnid) masqueradeBit

/-- `getMarkForVNID`: the mark value formatted with `fmt.Sprintf("0x%08x", ...)`. -/
def getMarkForVNID (vnid masqueradeBit : Nat) : String :=
  "0x" ++ String.mk (hexDigits 8 (getMarkValue vnid masqueradeBit))

/-- `assignEgressIP(egressIP, mark)`: refuses the node's own IP with an
error; otherwise (test mode) emits the `claim` token and succeeds. -/
def assignEgressIP (st : EgressState) (egressIP mark : String) :
    Except String Unit × EgressState :=
  if egressIP = st.localIP then
    (Except.error ("desired egress IP " ++ egressIP ++ " is the node IP"), st)
  else
    (Except.ok (), { st with calls := st.calls ++ [BackendCall.claimIP egressIP] })

/-- `releaseEgressIP(egressIP, mark)`: returns nil early on the node's own
IP; otherwise (test mode) emits the `release` token and succeeds. -/
def releaseEgressIP (st : EgressState) (egressIP mark : String) :
    Except String Unit × EgressState :=
  if egressIP = st.localIP then
    (Except.ok (), st)
  else
    (Except.ok (), { st with calls := st.calls ++ [BackendCall.releaseIP egressIP] })

/-- The node-assignment phase of `maybeAddEgressIP`: starting from
`nodeIP = ""`, if a node claims the IP and has not yet marked it assigned,
mark it assigned and resolve `nodeIP` to the claimant, performing the
local assignment when the claimant is the local node and treating failure
as unserved (`nodeIP` reset to `""`). -/
def maybeAddNodePhase (st : EgressState) (egressIP mark : String) : String × EgressState :=
  match alookup st.nodesByEgressIP egressIP,
        (alookup st.nodesByEgressIP egressIP).bind (alookup st.nodesByNodeIP) with
  | some nkey, some node =>
    if ¬(egressIP ∈ node.assignedIPs) then
      let node' := { node with assignedIPs := setInsert node.assignedIPs egressIP }
      let st := { st with nodesByNodeIP := aset st.nodesByNodeIP nkey node' }
      if nkey = st.localIP then
        match assignEgressIP st egressIP mark with
        | (Except.ok _, st') => (nkey, st')
        | (Except.error _, st') => ("", st')
      else (nkey, st)
    else ("", st)
  | _, _ => ("", st)

/-- The final phase of `maybeAddEgressIP`: if the namespace's recorded
`(assignedIP, nodeIP)` differs from the resolved pair, update the record
and push the namespace egress rule. -/
def maybeAddFinish (st : EgressState) (ns : NamespaceEgress) (egressIP nodeIP mark : String) :
    EgressState :=
  if ns.assignedIP ≠ egressIP ∨ ns.nodeIP ≠ nodeIP then
    let ns' := { ns with assignedIP := egressIP, nodeIP := nodeIP }
    { st with
      namespacesByVNID := aset st.namespacesByVNID ns.vnid ns'
      calls := st.calls ++ [BackendCall.setEgressViaIP ns'.vnid ns'.nodeIP mark] }
  else st

/-- `maybeAddEgressIP(egressIP)`: no-op unless some namespace requests this
exact IP; otherwise run the node-assignment phase and then the
record-update phase. -/
def maybeAddEgressIP (st : EgressState) (egressIP : String) : EgressState :=
  match (alookup st.namespacesByEgressIP egressIP).bind (alookup st.namespacesByVNID) with
  | none => st
  | some ns =>
    let mark := getMarkForVNID ns.vnid st.masqueradeBit
    match maybeAddNodePhase st egressIP mark with
    | (nodeIP, st) => maybeAddFinish st ns egressIP nodeIP mark

/-- The local-release phase of `deleteEgressIP`: when the claimant is the
local node, reverse the local assignment and remove the IP from the
claimant's `assignedIPs`. -/
def deleteEgressNodePhase (st : EgressState) (nkey egressIP mark : String) : EgressState :=
  if nkey = st.localIP then
    let st := (releaseEgressIP st egressIP mark).2
    match alookup st.nodesByNodeIP nkey with
    | some node =>
        { st with
          nodesByNodeIP := aset st.nodesByNodeIP nkey
            { node with assignedIPs := setDelete node.assignedIPs egressIP } }
    | none => st
  else st

/-- The namespace-clearing phase of `deleteEgressIP`: clear the recorded
assignment when it matches the deleted IP. -/
def deleteEgressNsClear (st : EgressState) (ns : NamespaceEgress) (egressIP : String) :
    NamespaceEgress × EgressState :=
  if ns.assignedIP = egressIP then
    let ns' := { ns with assignedIP := "", nodeIP := "" }
    (ns', { st with namespacesByVNID := aset st.namespacesByVNID ns.vnid ns' })
  else (ns, st)

/-- The rule re-push at the end of `deleteEgressIP`: normal egress when
the namespace no longer wants an egress IP, dropped when it still does. -/
def deleteEgressFinish (st : EgressState) (ns : NamespaceEgress) : EgressState :=
  if ns.requestedIP = "" then
    { st with calls := st.calls ++ [BackendCall.setEgressNormal ns.vnid] }
  else
    { st with calls := st.calls ++ [BackendCall.setEgressDropped ns.vnid] }

/-- `deleteEgressIP(egressIP)`: when both a node claims and a namespace
requests the IP, reverse the local assignment on the local claimant, clear
the namespace's assignment if it matched, and re-push the namespace rule. -/
def deleteEgressIP (st : EgressState) (egressIP : String) : EgressState :=
  match alookup st.nodesByEgressIP egressIP,
        (alookup st.namespacesByEgressIP egressIP).bind (alookup st.namespacesByVNID) with
  | some nkey, some ns =>
    let mark := getMarkForVNID ns.vnid st.masqueradeBit
    let st := deleteEgressNodePhase st nkey egressIP mark
    match deleteEgressNsClear st ns egressIP with
    | (ns, st) => deleteEgressFinish st ns
  | _, _ => st

/-- Body of the loop over newly requested IPs in `updateNodeEgress`: reject
the claim if another node already claims the IP, otherwise register this
node and try to satisfy pending namespace demand. -/
def processAddedIP (nodeIP : String) (st : EgressState) (ip : String) : EgressState :=
  match alookup st.nodesByEgressIP ip with
  | some _ => st
  | none =>
    let st := { st with nodesByEgressIP := aset st.nodesByEgressIP ip nodeIP }
    maybeAddEgressIP st ip

/-- Body of the loop over removed IPs in `updateNodeEgress`: skip if this
node is not the registered claimant (a removed duplicate claim), otherwise
tear down and unregister. -/
def processRemovedIP (nodeIP : String) (st : EgressState) (ip : String) : EgressState :=
  if alookup st.nodesByEgressIP ip = some nodeIP then
    let st := deleteEgressIP st ip
    { st with nodesByEgressIP := aerase st.nodesByEgressIP ip }
  else st

/-- `updateNodeEgress(nodeIP, nodeEgressIPs)`: materialize or delete the
node's record as the requested set transitions to or from empty, then
process the diff of old versus new requested IPs. -/
def updateNodeEgress (st : EgressState) (nodeIP : String) (nodeEgressIPs : List String) :
    EgressState :=
  let newRequested := mkSet nodeEgressIPs
  match alookup st.nodesByNodeIP nodeIP with
  | none =>
    if nodeEgressIPs = [] then st
    else
      let node : NodeEgress := { nodeIP := nodeIP, requestedIPs := newRequested, assignedIPs := [] }
      let st := { st with nodesByNodeIP := aset st.nodesByNodeIP nodeIP node }
      let st := (setDiff newRequested []).foldl (processAddedIP nodeIP) st
      (setDiff [] newRequested).foldl (processRemovedIP nodeIP) st
  | some node =>
    let oldRequested := node.requestedIPs
    let st :=
      if nodeEgressIPs = [] then
        { st with nodesByNodeIP := aerase st.nodesByNodeIP nodeIP }
      else
        { st with
          nodesByNodeIP := aset st.nodesByNodeIP nodeIP
            { node with requestedIPs := newRequested } }
    let st := (setDiff newRequested oldRequested).foldl (processAddedIP nodeIP) st
    (setDiff oldRequested newRequested).foldl (processRemovedIP nodeIP) st

/-- The record fetch at the top of `updateNamespaceEgress`: get the
namespace record, materializing an empty one under the VNID if absent. -/
def getOrCreateNs (st : EgressState) (vnid : Nat) : NamespaceEgress × EgressState :=
  match alookup st.namespacesByVNID vnid with
  | none =>
    let ns : NamespaceEgress := { vnid := vnid, requestedIP := "", assignedIP := "", nodeIP := "" }
    (ns, { st with namespacesByVNID := aset st.namespacesByVNID vnid ns })
  | some ns => (ns, st)

/-- The teardown branch of `updateNamespaceEgress`, taken when the
namespace has a recorded assignment.  Note that the source passes the NEW
`egressIP` to `deleteEgressIP` and to the `namespacesByEgressIP` delete
here, not the previously assigned IP. -/
def nsTeardownOnChange (st : EgressState) (ns : NamespaceEgress) (vnid : Nat)
    (egressIP : String) : NamespaceEgress × EgressState :=
  if ns.assignedIP ≠ "" then
    let st := deleteEgressIP st egressIP
    let st := { st with namespacesByEgressIP := aerase st.namespacesByEgressIP egressIP }
    let ns' := { ns with assignedIP := "", nodeIP := "" }
    (ns', { st with namespacesByVNID := aset st.namespacesByVNID vnid ns' })
  else (ns, st)

/-- The final phase of `updateNamespaceEgress`: record the requested IP,
register the namespace as the IP's claimant, and try to satisfy it. -/
def nsRegister (st : EgressState) (ns : NamespaceEgress) (vnid : Nat) (egressIP : String) :
    EgressState :=
  let ns' := { ns with requestedIP := egressIP }
  let st := { st with namespacesByVNID := aset st.namespacesByVNID vnid ns' }
  let st := { st with namespacesByEgressIP := aset st.namespacesByEgressIP egressIP vnid }
  maybeAddEgressIP st egressIP

/-- `updateNamespaceEgress(vnid, egressIP)`: no-op if the requested IP is
unchanged; refuse if another namespace claims the IP; tear down a previous
assignment; then register and try to satisfy the request. -/
def updateNamespaceEgress (st : EgressState) (vnid : Nat) (egressIP : String) : EgressState :=
  match getOrCreateNs st vnid with
  | (ns, st) =>
    if ns.requestedIP = egressIP then st
    else
      match alookup st.namespacesByEgressIP egressIP with
      | some _ => st
      | none =>
        match nsTeardownOnChange st ns vnid egressIP with
        | (ns, st) => nsRegister st ns vnid egressIP

/-- `deleteNamespaceEgress(vnid)`: clear `requestedIP` first so that
`deleteEgressIP` resolves to "no longer wants", tear down the assignment,
unregister it, then drop the namespace record. -/
def deleteNamespaceEgress (st : EgressState) (vnid : Nat) : EgressState :=
  match alookup st.namespacesByVNID vnid with
  | none => st
  | some ns =>
    let st :=
      if ns.assignedIP ≠ "" then
        let st := { st with
          namespacesByVNID := aset st.namespacesByVNID vnid { ns with requestedIP := "" } }
        let egressIP := ns.assignedIP
        let st := deleteEgressIP st egressIP
        { st with namespacesByEgressIP := aerase st.namespacesByEgressIP egressIP }
      else st
    { st with namespacesByVNID := aerase st.namespacesByVNID vnid }

/-- The `watchNetNamespaces` event handler: a non-deleted event with a
non-empty egress list updates using the first entry (extra entries are
ignored with a warning); a deleted event or an empty list deletes. -/
def handleNetNamespaceEvent (st : EgressState) (deleted : Bool) (netID : Nat)
    (egressIPs : List String) : EgressState :=
  match deleted, egressIPs with
  | false, ip :: _ => updateNamespaceEgress st netID ip
  | _, _ => deleteNamespaceEgress st netID

/-- The `watchHostSubnets` event handler: a deleted event clears the
egress-IP list, otherwise the HostSubnet's list is applied. -/
def handleHostSubnetEvent (st : EgressState) (deleted : Bool) (hostIP : String)
    (egressIPs : List String) : EgressState :=
  updateNodeEgress st hostIP (if deleted then [] else egressIPs)

/-- A persisted `Subnet` record: `{NodeIP, SubnetIP}` (the subnet CIDR). -/
structure Subnet where
  nodeIP : String
  subnetIP : String
deriving DecidableEq, Repr

/-- Calls the master's node watcher makes to its collaborators: the subnet
registry (`DeleteSubnet`/`CreateSubnet`) and the `SubnetAllocator`
(`GetNetwork`/`ReleaseNetwork`). -/
inductive MasterCall where
  | allocGetNetwork
  | allocReleaseNetwork (cidr : String)
  | deleteSubnet (node : String)
  | createSubnet (node : String) (sub : Subnet)
deriving DecidableEq, Repr

/-- Master-side state for `watchNodes`: the persisted subnets keyed by node
name, the `SubnetAllocator` modelled as its queue of still-unallocated
subnetworks, and the trace of registry/allocator calls. -/
structure MasterState where
  subnets : List (String × Subnet)
  freeNetworks : List String
  calls : List MasterCall
deriving DecidableEq, Repr

/-- `SubnetAllocator.GetNetwork()`: hand out the next unallocated
subnetwork, failing when the range is exhausted. -/
def getNetwork (st : MasterState) : Except String String × MasterState :=
  match st.freeNetworks with
  | [] => (Except.error "range exhausted",
      { st with calls := st.calls ++ [MasterCall.allocGetNetwork] })
  | sn :: rest => (Except.ok sn,
      { st with freeNetworks := rest, calls := st.calls ++ [MasterCall.allocGetNetwork] })

/-- `AddNode(nodeName, nodeIP)`: allocate a network, reject an empty or
loopback node IP, then persist the new subnet record. -/
def addNode (st : MasterState) (nodeName nodeIP : String) : Except String Unit × MasterState :=
  match getNetwork st with
  | (Except.error e, st) => (Except.error e, st)
  | (Except.ok sn, st) =>
    if nodeIP = "" ∨ nodeIP = "127.0.0.1" then (Except.error "Invalid node IP", st)
    else
      let sub : Subnet := { nodeIP := nodeIP, subnetIP := sn }
      (Except.ok (), { st with
        subnets := aset st.subnets nodeName sub
        calls := st.calls ++ [MasterCall.createSubnet nodeName sub] })

/-- The `api.Added` arm of `watchNodes`: if no subnet exists for the node,
`AddNode`; if one exists with a different recorded IP, delete it and
recreate it with the event's IP at the same subnet CIDR. -/
def watchNodeAdded (st : MasterState) (nodeName nodeIP : String) : MasterState :=
  match alookup st.subnets nodeName with
  | none => (addNode st nodeName nodeIP).2
  | some sub =>
    if sub.nodeIP ≠ nodeIP then
      let st := { st with
        subnets := aerase st.subnets nodeName
        calls := st.calls ++ [MasterCall.deleteSubnet nodeName] }
      let sub' := { sub with nodeIP := nodeIP }
      { st with
        subnets := aset st.subnets nodeName sub'
        calls := st.calls ++ [MasterCall.createSubnet nodeName sub'] }
    else st

/-- Every entry of `namespacesByVNID` records its own key in its `vnid` field. -/
def InvVnidKeys (s : EgressState) : Prop :=
  ∀ v ns, alookup s.namespacesByVNID v = some ns → ns.vnid = v

/-- Every claim in `nodesByEgressIP` is backed by a live node record that
requests the claimed IP. -/
def InvClaims (s : EgressState) : Prop :=
  ∀ ip nkey, alookup s.nodesByEgressIP ip = some nkey →
    ∃ node, alookup s.nodesByNodeIP nkey = some node ∧ ip ∈ node.requestedIPs

/-- Every namespace served by a node (`nodeIP ≠ ""`) is registered under its
assigned IP, that IP's claimant is the serving node, and the serving node's
record has the IP marked assigned. -/
def InvServed (s : EgressState) : Prop :=
  ∀ v ns, alookup s.namespacesByVNID v = some ns → ns.nodeIP ≠ "" →
    alookup s.namespacesByEgressIP ns.assignedIP = some v ∧
    alookup s.nodesByEgressIP ns.assignedIP = some ns.nodeIP ∧
    ∃ node, alookup s.nodesByNodeIP ns.nodeIP = some node ∧
      ns.assignedIP ∈ node.assignedIPs

/-- `InvClaims` weakened during `updateNodeEgress`: a claim held by the node
`n` being processed may instead still be awaiting removal (its IP on the
`todo` list of the removed-IPs loop). -/
def InvClaimsW (n : String) (todo : List String) (s : EgressState) : Prop :=
  ∀ ip nkey, alookup s.nodesByEgressIP ip = some nkey →
    (∃ node, alookup s.nodesByNodeIP nkey = some node ∧ ip ∈ node.requestedIPs) ∨
    (nkey = n ∧ ip ∈ todo)

/-- `InvServed` weakened during `updateNodeEgress`: a namespace served by the
node `n` being processed may have lost its backing record while its IP is
still awaiting removal (on the `todo` list of the removed-IPs loop). -/
def InvServedW (n : String) (todo : List String) (s : EgressState) : Prop :=
  ∀ v ns, alookup s.namespacesByVNID v = some ns → ns.nodeIP ≠ "" →
    alookup s.namespacesByEgressIP ns.assignedIP = some v ∧
    alookup s.nodesByEgressIP ns.assignedIP = some ns.nodeIP ∧
    ((∃ node, alookup s.nodesByNodeIP ns.nodeIP = some node ∧
        ns.assignedIP ∈ node.assignedIPs) ∨
      (ns.nodeIP = n ∧ ns.assignedIP ∈ todo))

/-- The watcher invariant relating the four maps. -/
def EgressInv (s : EgressState) : Prop :=
  InvVnidKeys s ∧ InvClaims s ∧ InvServed s

/-- States reachable from a fresh watcher by the three locked mutating
entry points of `egressIPWatcher` (the HostSubnet and NetNamespace event
handlers dispatch to exactly these). -/
inductive EgressReachable : EgressState → Prop where
  | init (localIP : String) (masqueradeBit : Nat) :
      EgressReachable (newEgressIPWatcher localIP masqueradeBit)
  | nodeEvent (st : EgressState) (h : EgressReachable st) (n : String) (ips : List String) :
      EgressReachable (updateNodeEgress st n ips)
  | nsUpdate (st : EgressState) (h : EgressReachable st) (v : Nat) (x : String) :
      EgressReachable (updateNamespaceEgress st v x)
  | nsDelete (st : EgressState) (h : EgressReachable st) (v : Nat) :
      EgressReachable (deleteNamespaceEgress st v)

@[simp]
theorem alookup_nil {κ α : Type} [DecidableEq κ] (key : κ) :
    alookup ([] : List (κ × α)) key = none := rfl

@[simp]
theorem alookup_cons {κ α : Type} [DecidableEq κ] (k : κ) (v : α) (rest : List (κ × α)) (key : κ) :
    alookup ((k, v) :: rest) key = if k = key then some v else alookup rest key := rfl

@[simp]
theorem alookup_aset_self {κ α : Type} [DecidableEq κ] (l : List (κ × α)) (key : κ) (val : α) :
    alookup (aset l key val) key = some val := by
  induction l with
  | nil => simp [aset]
  | cons kv rest ih =>
      obtain ⟨k, v⟩ := kv
      by_cases h : k = key <;> simp [aset, h, ih]

theorem alookup_aset_ne {κ α : Type} [DecidableEq κ] (l : List (κ × α)) (key key' : κ) (val : α)
    (h : key ≠ key') : alookup (aset l key val) key' = alookup l key' := by
  induction l with
  | nil => simp [aset, h]
  | cons kv rest ih =>
      obtain ⟨k, v⟩ := kv
      by_cases hk : k = key
      · subst hk; simp [aset, h]
      · simp [aset, hk, ih]

@[simp]
theorem alookup_aerase_self {κ α : Type} [DecidableEq κ] (l : List (κ × α)) (key : κ) :
    alookup (aerase l key) key = none := by
  induction l with
  | nil => simp [aerase]
  | cons kv rest ih =>
      obtain ⟨k, v⟩ := kv
      by_cases h : k = key <;> simp [aerase, h] at ih ⊢ <;> simp [ih]

theorem alookup_aerase_ne {κ α : Type} [DecidableEq κ] (l : List (κ × α)) (key key' : κ)
    (h : key ≠ key') : alookup (aerase l key) key' = alookup l key' := by
  induction l with
  | nil => simp [aerase]
  | cons kv rest ih =>
      obtain ⟨k, v⟩ := kv
      by_cases hk : k = key
      · have : aerase ((k, v) :: rest) key = aerase rest key := by
          simp [aerase, hk]
        rw [this, ih]
        have hkk' : ¬k = key' := by rw [hk]; exact h
        simp [hkk']
      · have : aerase ((k, v) :: rest) key = (k, v) :: aerase rest key := by
          simp [aerase, hk]
        rw [this]
        by_cases hk' : k = key' <;> simp [hk', ih]

theorem aset_self {κ α : Type} [DecidableEq κ] (l : List (κ × α)) (key : κ) (val : α)
    (h : alookup l key = some val) : aset l key val = l := by
  induction l with
  | nil => simp [alookup] at h
  | cons kv rest ih =>
      obtain ⟨k, v⟩ := kv
      by_cases hk : k = key
      · subst hk
        simp [alookup] at h
        simp [aset, h]
      · simp [alookup, hk] at h
        simp [aset, hk, ih h]

@[simp]
theorem setDiff_nil_right (a : List String) : setDiff a [] = a := by
  simp [setDiff]

@[simp]
theorem setDiff_nil_left (b : List String) : setDiff [] b = [] := rfl

@[simp]
theorem setDiff_self (a : List String) : setDiff a a = [] := by
  simp only [setDiff, List.filter_eq_nil_iff]
  intro x hx
  simp [hx]

@[simp]
theorem mem_setInsert (s : List String) (x y : String) :
    y ∈ setInsert s x ↔ y ∈ s ∨ y = x := by
  by_cases h : x ∈ s
  · simp only [setInsert, if_pos h]
    constructor
    · exact Or.inl
    · rintro (hy | rfl)
      · exact hy
      · exact h
  · simp [setInsert, h]

@[simp]
theorem mem_setDelete (s : List String) (x y : String) :
    y ∈ setDelete s x ↔ y ∈ s ∧ y ≠ x := by
  simp [setDelete]

@[simp]
theorem mkSet_nil : mkSet [] = [] := rfl

theorem and_two_pow_ne_zero_iff (x b : Nat) : x &&& 2 ^ b ≠ 0 ↔ x.testBit b = true := by
  rw [Nat.and_two_pow]
  cases h : x.testBit b <;> simp [h]

theorem ne_zero_of_testBit {x i : Nat} (h : x.testBit i = true) : x ≠ 0 := by
  intro h0
  rw [h0, Nat.zero_testBit] at h
  exact Bool.false_ne_true h

theorem ff000000_as_shift : (0xff000000 : Nat) = 0xff <<< 24 := by decide

theorem testBit_ff_low {b : Nat} (hb : b < 24) : (0xff000000 : Nat).testBit b = false := by
  rw [ff000000_as_shift, Nat.testBit_shiftLeft]
  simp [Nat.not_le.2 hb]

theorem testBit_ff_high {b : Nat} (h1 : 24 ≤ b) (h2 : b < 32) :
    (0xff000000 : Nat).testBit b = true := by
  interval_cases b <;> decide

theorem testBit_true_lt_24 {v b : Nat} (hv : v < 2 ^ 24) (h : v.testBit b = true) : b < 24 := by
  by_contra hb
  have h1 : 2 ^ b ≤ v := Nat.testBit_implies_ge h
  have h2 : (2 : Nat) ^ 24 ≤ 2 ^ b := Nat.pow_le_pow_right (by omega) (by omega)
  omega

theorem testBit_small_high {v i : Nat} (hv : v < 2 ^ 24) (hi : 24 ≤ i) :
    v.testBit i = false := by
  apply Nat.testBit_lt_two_pow
  calc v < 2 ^ 24 := hv
    _ ≤ 2 ^ i := Nat.pow_le_pow_right (by omega) hi

theorem or_two_pow_24_inj {v1 v2 : Nat} (h1 : v1 < 2 ^ 24) (h2 : v2 < 2 ^ 24)
    (h : v1 ||| 0x01000000 = v2 ||| 0x01000000) : v1 = v2 := by
  have h24 : (0x01000000 : Nat) = 2 ^ 24 := by decide
  rw [h24] at h
  apply Nat.eq_of_testBit_eq
  intro i
  by_cases hi : i = 24
  · rw [hi, Nat.testBit_lt_two_pow h1, Nat.testBit_lt_two_pow h2]
  · have := congrArg (fun n => Nat.testBit n i) h
    simpa [Nat.testBit_two_pow_of_ne (fun he => hi he.symm)] using this

theorem markPerturb_clear (w b : Nat) : markPerturb w (2 ^ b) &&& 2 ^ b = 0 := by
  unfold markPerturb
  by_cases hg : w &&& 2 ^ b ≠ 0
  · rw [if_pos hg]
    have hwb : w.testBit b = true := (and_two_pow_ne_zero_iff w b).mp hg
    rw [Nat.and_two_pow]
    simp [Nat.testBit_xor, Nat.testBit_or, hwb, Nat.testBit_two_pow_self]
  · rw [if_neg hg]
    push_neg at hg
    exact hg

theorem markPerturb_nonzero_small {w b : Nat} (hw0 : w ≠ 0) (hw : w < 2 ^ 24) :
    markPerturb w (2 ^ b) ≠ 0 := by
  unfold markPerturb
  by_cases hg : w &&& 2 ^ b ≠ 0
  · rw [if_pos hg]
    have hwb : w.testBit b = true := (and_two_pow_ne_zero_iff w b).mp hg
    have hblt : b < 24 := testBit_true_lt_24 hw hwb
    apply ne_zero_of_testBit (i := 24)
    have h24 : (0x01000000 : Nat) = 2 ^ 24 := by decide
    rw [h24, Nat.testBit_xor, Nat.testBit_or, Nat.testBit_two_pow_self,
      Nat.testBit_two_pow_of_ne (by omega : b ≠ 24)]
    simp
  · rw [if_neg hg]
    exact hw0

theorem markPerturb_nonzero_ff {b : Nat} (hb : b < 32) :
    markPerturb 0xff000000 (2 ^ b) ≠ 0 := by
  unfold markPerturb
  by_cases hg : (0xff000000 : Nat) &&& 2 ^ b ≠ 0
  · rw [if_pos hg]
    have hwb : (0xff000000 : Nat).testBit b = true := (and_two_pow_ne_zero_iff _ b).mp hg
    have hbge : 24 ≤ b := by
      by_contra hlt
      rw [testBit_ff_low (by omega)] at hwb
      exact Bool.false_ne_true hwb
    have hor : (0xff000000 : Nat) ||| 0x01000000 = 0xff000000 := by decide
    rw [hor]
    by_cases h24 : b = 24
    · apply ne_zero_of_testBit (i := 25)
      rw [Nat.testBit_xor, Nat.testBit_two_pow_of_ne (by omega : b ≠ 25),
        testBit_ff_high (by omega) (by omega)]
      simp
    · apply ne_zero_of_testBit (i := 24)
      rw [Nat.testBit_xor, Nat.testBit_two_pow_of_ne (by omega : b ≠ 24),
        testBit_ff_high (by omega) (by omega)]
      simp
  · rw [if_neg hg]
    decide

theorem getMarkValue_nonzero {v b : Nat} (hv : v < 2 ^ 24) (hb : b < 32) :
    getMarkValue v (2 ^ b) ≠ 0 := by
  unfold getMarkValue
  by_cases hz : v = 0
  · rw [if_pos hz]
    exact markPerturb_nonzero_ff hb
  · rw [if_neg hz]
    exact markPerturb_nonzero_small hz hv

theorem getMarkValue_bit_clear (v b : Nat) : getMarkValue v (2 ^ b) &&& 2 ^ b = 0 := by
  unfold getMarkValue
  exact markPerturb_clear _ b

theorem getMarkValue_lt {v b : Nat} (hv : v < 2 ^ 24) (hb : b < 32) :
    getMarkValue v (2 ^ b) < 2 ^ 32 := by
  have hble : (2 : Nat) ^ b ≤ 2 ^ 31 := Nat.pow_le_pow_right (by omega) (by omega)
  have h31 : (2 : Nat) ^ 31 < 2 ^ 32 := by decide
  have h2432 : (2 : Nat) ^ 24 < 2 ^ 32 := by decide
  have hv32 : v < 2 ^ 32 := by omega
  have hw : (if v = 0 then 0xff000000 else v) < 2 ^ 32 := by
    by_cases hz : v = 0
    · rw [if_pos hz]; decide
    · rw [if_neg hz]; exact hv32
  unfold getMarkValue markPerturb
  by_cases hg : (if v = 0 then 0xff000000 else v) &&& 2 ^ b ≠ 0
  · rw [if_pos hg]
    apply Nat.xor_lt_two_pow _ (by omega)
    apply Nat.or_lt_two_pow hw
    decide
  · rw [if_neg hg]
    exact hw

theorem markPerturb_guard_true {w b : Nat} (hg : w.testBit b = true) :
    markPerturb w (2 ^ b) = (w ||| 0x01000000) ^^^ 2 ^ b := by
  unfold markPerturb
  rw [if_pos ((and_two_pow_ne_zero_iff w b).mpr hg)]

theorem markPerturb_guard_false {w b : Nat} (hg : w.testBit b = false) :
    markPerturb w (2 ^ b) = w := by
  unfold markPerturb
  rw [if_neg]
  intro hne
  have := (and_two_pow_ne_zero_iff w b).mp hne
  rw [hg] at this
  exact Bool.false_ne_true this

theorem markPerturb_ff_ne_small {b v : Nat} (hb : b < 32) (hv : v < 2 ^ 24) :
    markPerturb 0xff000000 (2 ^ b) ≠ markPerturb v (2 ^ b) := by
  cases hgv : v.testBit b with
  | true =>
    have hblt : b < 24 := testBit_true_lt_24 hv hgv
    rw [markPerturb_guard_false (testBit_ff_low hblt), markPerturb_guard_true hgv]
    intro h
    have hbit := congrArg (fun n => Nat.testBit n 25) h
    simp only [Nat.testBit_xor, Nat.testBit_or] at hbit
    rw [show ((0xff000000 : Nat).testBit 25) = true from by decide,
      show ((0x01000000 : Nat).testBit 25) = false from by decide,
      Nat.testBit_two_pow_of_ne (by omega : b ≠ 25),
      testBit_small_high hv (by omega)] at hbit
    simp at hbit
  | false =>
    rw [markPerturb_guard_false hgv]
    cases hgC : (0xff000000 : Nat).testBit b with
    | false =>
      rw [markPerturb_guard_false hgC]
      intro h
      have hbit := congrArg (fun n => Nat.testBit n 24) h
      simp only at hbit
      rw [show ((0xff000000 : Nat).testBit 24) = true from by decide,
        testBit_small_high hv (by omega)] at hbit
      simp at hbit
    | true =>
      have hbge : 24 ≤ b := by
        by_contra hlt
        rw [testBit_ff_low (by omega)] at hgC
        exact Bool.false_ne_true hgC
      rw [markPerturb_guard_true hgC,
        show ((0xff000000 : Nat) ||| 0x01000000) = 0xff000000 from by decide]
      by_cases h24 : b = 24
      · intro h
        have hbit := congrArg (fun n => Nat.testBit n 25) h
        simp only [Nat.testBit_xor] at hbit
        rw [show ((0xff000000 : Nat).testBit 25) = true from by decide,
          Nat.testBit_two_pow_of_ne (by omega : b ≠ 25),
          testBit_small_high hv (by omega)] at hbit
        simp at hbit
      · intro h
        have hbit := congrArg (fun n => Nat.testBit n 24) h
        simp only [Nat.testBit_xor] at hbit
        rw [show ((0xff000000 : Nat).testBit 24) = true from by decide,
          Nat.testBit_two_pow_of_ne (by omega : b ≠ 24),
          testBit_small_high hv (by omega)] at hbit
        simp at hbit

theorem markPerturb_true_ne_false {b v v' : Nat} (hv : v < 2 ^ 24) (hv' : v' < 2 ^ 24)
    (hg : v.testBit b = true) (hg' : v'.testBit b = false) :
    markPerturb v (2 ^ b) ≠ markPerturb v' (2 ^ b) := by
  rw [markPerturb_guard_true hg, markPerturb_guard_false hg']
  intro h
  have hblt : b < 24 := testBit_true_lt_24 hv hg
  have hbit := congrArg (fun n => Nat.testBit n 24) h
  simp only [Nat.testBit_xor, Nat.testBit_or] at hbit
  rw [show ((0x01000000 : Nat).testBit 24) = true from by decide,
    Nat.testBit_two_pow_of_ne (by omega : b ≠ 24),
    testBit_small_high hv' (by omega)] at hbit
  simp at hbit

theorem markPerturb_small_inj {b v1 v2 : Nat} (h1 : v1 < 2 ^ 24) (h2 : v2 < 2 ^ 24)
    (h : markPerturb v1 (2 ^ b) = markPerturb v2 (2 ^ b)) : v1 = v2 := by
  cases hg1 : v1.testBit b with
  | true =>
    cases hg2 : v2.testBit b with
    | true =>
      rw [markPerturb_guard_true hg1, markPerturb_guard_true hg2] at h
      have h' : v1 ||| 0x01000000 = v2 ||| 0x01000000 := by
        have := congrArg (fun n => n ^^^ 2 ^ b) h
        simpa [Nat.xor_cancel_right] using this
      exact or_two_pow_24_inj h1 h2 h'
    | false => exact absurd h (markPerturb_true_ne_false h1 h2 hg1 hg2)
  | false =>
    cases hg2 : v2.testBit b with
    | true => exact absurd h.symm (markPerturb_true_ne_false h2 h1 hg2 hg1)
    | false =>
      rwa [markPerturb_guard_false hg1, markPerturb_guard_false hg2] at h

theorem getMarkValue_inj {b v1 v2 : Nat} (hb : b < 32) (h1 : v1 < 2 ^ 24) (h2 : v2 < 2 ^ 24)
    (h : getMarkValue v1 (2 ^ b) = getMarkValue v2 (2 ^ b)) : v1 = v2 := by
  unfold getMarkValue at h
  by_cases hz1 : v1 = 0 <;> by_cases hz2 : v2 = 0
  · rw [hz1, hz2]
  · rw [if_pos hz1, if_neg hz2] at h
    exact absurd h (markPerturb_ff_ne_small hb h2)
  · rw [if_neg hz1, if_pos hz2] at h
    exact absurd h.symm (markPerturb_ff_ne_small hb h1)
  · rw [if_neg hz1, if_neg hz2] at h
    exact markPerturb_small_inj h1 h2 h

theorem hexChar_inj : ∀ d1, d1 < 16 → ∀ d2, d2 < 16 → hexChar d1 = hexChar d2 → d1 = d2 := by
  decide

theorem hexDigits_length : ∀ (k n : Nat), (hexDigits k n).length = k
  | 0, _ => rfl
  | k + 1, n => by simp [hexDigits, hexDigits_length k]

theorem hexDigits_inj : ∀ (k a b : Nat), a < 16 ^ k → b < 16 ^ k →
    hexDigits k a = hexDigits k b → a = b := by
  intro k
  induction k with
  | zero =>
    intro a b ha hb _
    simp [Nat.pow_zero] at ha hb
    omega
  | succ k ih =>
    intro a b ha hb h
    simp only [hexDigits] at h
    have hlen : (hexDigits k (a / 16)).length = (hexDigits k (b / 16)).length := by
      rw [hexDigits_length, hexDigits_length]
    obtain ⟨hinit, hlast⟩ := List.append_inj h hlen
    have hc : hexChar (a % 16) = hexChar (b % 16) := by
      injection hlast
    have hmod : a % 16 = b % 16 :=
      hexChar_inj _ (Nat.mod_lt a (by omega)) _ (Nat.mod_lt b (by omega)) hc
    have hdiva : a / 16 < 16 ^ k := by
      rw [Nat.div_lt_iff_lt_mul (by omega)]
      calc a < 16 ^ (k + 1) := ha
        _ = 16 ^ k * 16 := by rw [Nat.pow_succ]
    have hdivb : b / 16 < 16 ^ k := by
      rw [Nat.div_lt_iff_lt_mul (by omega)]
      calc b < 16 ^ (k + 1) := hb
        _ = 16 ^ k * 16 := by rw [Nat.pow_succ]
    have hdiv : a / 16 = b / 16 := ih _ _ hdiva hdivb hinit
    omega

theorem getMarkForVNID_inj {b v1 v2 : Nat} (hb : b < 32) (h1 : v1 < 2 ^ 24) (h2 : v2 < 2 ^ 24)
    (h : getMarkForVNID v1 (2 ^ b) = getMarkForVNID v2 (2 ^ b)) : v1 = v2 := by
  apply getMarkValue_inj hb h1 h2
  unfold getMarkForVNID at h
  have hdata := congrArg String.data h
  simp only [String.data_append] at hdata
  have hlists := List.append_cancel_left hdata
  have h168 : (16 : Nat) ^ 8 = 2 ^ 32 := by decide
  apply hexDigits_inj 8
  · rw [h168]; exact getMarkValue_lt h1 hb
  · rw [h168]; exact getMarkValue_lt h2 hb
  · exact hlists

/-- C6: for every masquerade bit of the form `1 << b` (`b < 32`) and every
VNID in `[0, 2^24 - 1]`, `getMarkForVNID` yields a mark whose numeric
value (`getMarkValue`) is non-zero and has the masquerade bit clear, and
two distinct VNIDs in that range never yield the same mark string. -/
theorem C6_mark_nonzero_clear_injective {b : Nat} (hb : b < 32) {v : Nat} (hv : v < 2 ^ 24) :
    getMarkValue v (2 ^ b) ≠ 0 ∧ getMarkValue v (2 ^ b) &&& 2 ^ b = 0 ∧
    ∀ v', v' < 2 ^ 24 → getMarkForVNID v (2 ^ b) = getMarkForVNID v' (2 ^ b) → v = v' :=
  ⟨getMarkValue_nonzero hv hb, getMarkValue_bit_clear v b,
    fun _ hv' h => getMarkForVNID_inj hb hv hv' h⟩

theorem C6_witness :
    getMarkValue 7 (2 ^ 0) ≠ 0 ∧ getMarkValue 7 (2 ^ 0) &&& 2 ^ 0 = 0 ∧
    (getMarkForVNID 7 (2 ^ 0) = getMarkForVNID 8 (2 ^ 0) → 7 = 8) := by
  have h := C6_mark_nonzero_clear_injective (b := 0) (by decide) (v := 7) (by decide)
  exact ⟨h.1, h.2.1, fun he => h.2.2 8 (by decide) he⟩

/-- C8 (amended): both `assignEgressIP` and `releaseEgressIP` refuse to
operate when the egress IP equals the node's own primary IP and perform no
backend action (the state, including the call trace, is unchanged);
`assignEgressIP` reports this as an error, while `releaseEgressIP` returns
success (`return nil`) rather than an error. -/
theorem C8_selfIP_refused (st : EgressState) (mark : String) :
    assignEgressIP st st.localIP mark =
      (Except.error ("desired egress IP " ++ st.localIP ++ " is the node IP"), st) ∧
    releaseEgressIP st st.localIP mark = (Except.ok (), st) := by
  constructor <;> simp [assignEgressIP, releaseEgressIP]

/-- C8 counterexample: at a concrete state, `releaseEgressIP` on the
node's own primary IP returns success with the state unchanged, refuting
the claim that it returns a `SelfIPConflict` error. -/
theorem C8_counterexample :
    releaseEgressIP (newEgressIPWatcher "10.0.0.1" 1) "10.0.0.1" "0x01000006" =
      (Except.ok (), newEgressIPWatcher "10.0.0.1" 1) := rfl

/-- C2 (code bug, evaluated at the failing input): node `10.0.0.1` (the
local node) claims and serves `10.0.0.5` for namespace 7; the namespace
then switches its request to the unclaimed IP `10.0.0.6`.  The source
passes the NEW ip to `deleteEgressIP` and to the `namespacesByEgressIP`
delete (both guaranteed no-ops, as the new ip was just checked to be
unclaimed), so the old assignment is never torn down: the old ip's
`namespacesByEgressIP` entry survives, the old ip is still in the node's
`assignedIPs`, and no `release` token is ever emitted. -/
theorem C2_bug_eval :
    (updateNamespaceEgress (updateNamespaceEgress (updateNodeEgress
        (newEgressIPWatcher "10.0.0.1" 1) "10.0.0.1" ["10.0.0.5"]) 7 "10.0.0.5")
        7 "10.0.0.6").namespacesByEgressIP = [("10.0.0.5", 7), ("10.0.0.6", 7)] ∧
    (updateNamespaceEgress (updateNamespaceEgress (updateNodeEgress
        (newEgressIPWatcher "10.0.0.1" 1) "10.0.0.1" ["10.0.0.5"]) 7 "10.0.0.5")
        7 "10.0.0.6").nodesByNodeIP =
      [("10.0.0.1", (⟨"10.0.0.1", ["10.0.0.5"], ["10.0.0.5"]⟩ : NodeEgress))] ∧
    (updateNamespaceEgress (updateNamespaceEgress (updateNodeEgress
        (newEgressIPWatcher "10.0.0.1" 1) "10.0.0.1" ["10.0.0.5"]) 7 "10.0.0.5")
        7 "10.0.0.6").calls =
      [BackendCall.claimIP "10.0.0.5",
       BackendCall.setEgressViaIP 7 "10.0.0.1" "0x01000006",
       BackendCall.setEgressViaIP 7 "" "0x01000006"] := by
  decide

theorem assignEgressIP_snd_frame (st : EgressState) (x m : String) :
    ∃ cs, (assignEgressIP st x m).2 = { st with calls := cs } := by
  unfold assignEgressIP
  split
  · exact ⟨st.calls, rfl⟩
  · exact ⟨_, rfl⟩

theorem releaseEgressIP_snd_frame (st : EgressState) (x m : String) :
    ∃ cs, (releaseEgressIP st x m).2 = { st with calls := cs } := by
  unfold releaseEgressIP
  split
  · exact ⟨st.calls, rfl⟩
  · exact ⟨_, rfl⟩

theorem maybeAddNodePhase_frame (st : EgressState) (x m : String) :
    ∃ nn cs, (maybeAddNodePhase st x m).2 = { st with nodesByNodeIP := nn, calls := cs } := by
  unfold maybeAddNodePhase
  split
  · dsimp only
    split
    · split
      · split
        next heq =>
          have hst : _ = (assignEgressIP _ x m).2 := (congrArg Prod.snd heq).symm
          dsimp only at hst
          obtain ⟨cs, hc⟩ := assignEgressIP_snd_frame
            { st with nodesByNodeIP := aset st.nodesByNodeIP _ _ } x m
          rw [hst, hc]
          exact ⟨_, _, rfl⟩
        next heq =>
          have hst : _ = (assignEgressIP _ x m).2 := (congrArg Prod.snd heq).symm
          dsimp only at hst
          obtain ⟨cs, hc⟩ := assignEgressIP_snd_frame
            { st with nodesByNodeIP := aset st.nodesByNodeIP _ _ } x m
          rw [hst, hc]
          exact ⟨_, _, rfl⟩
      · exact ⟨_, st.calls, rfl⟩
    · exact ⟨st.nodesByNodeIP, st.calls, rfl⟩
  · exact ⟨st.nodesByNodeIP, st.calls, rfl⟩

theorem maybeAddFinish_frame (st : EgressState) (ns : NamespaceEgress) (x nodeIP m : String) :
    ∃ nv cs, maybeAddFinish st ns x nodeIP m = { st with namespacesByVNID := nv, calls := cs } := by
  unfold maybeAddFinish
  split
  · exact ⟨_, _, rfl⟩
  · exact ⟨st.namespacesByVNID, st.calls, rfl⟩

theorem maybeAddEgressIP_frame (st : EgressState) (x : String) :
    ∃ nn nv cs, maybeAddEgressIP st x =
      { st with nodesByNodeIP := nn, namespacesByVNID := nv, calls := cs } := by
  unfold maybeAddEgressIP
  split
  · exact ⟨st.nodesByNodeIP, st.namespacesByVNID, st.calls, rfl⟩
  · next ns hns =>
    dsimp only
    obtain ⟨nn, cs, hp⟩ := maybeAddNodePhase_frame st x (getMarkForVNID ns.vnid st.masqueradeBit)
    rw [hp]
    obtain ⟨nv, cs', hf⟩ := maybeAddFinish_frame { st with nodesByNodeIP := nn, calls := cs }
      ns x (maybeAddNodePhase st x (getMarkForVNID ns.vnid st.masqueradeBit)).1
      (getMarkForVNID ns.vnid st.masqueradeBit)
    rw [hf]
    exact ⟨_, _, _, rfl⟩

theorem deleteEgressNodePhase_frame (st : EgressState) (nkey x m : String) :
    ∃ nn cs, deleteEgressNodePhase st nkey x m =
      { st with nodesByNodeIP := nn, calls := cs } := by
  unfold deleteEgressNodePhase
  split
  · obtain ⟨cs, hc⟩ := releaseEgressIP_snd_frame st x m
    rw [hc]
    dsimp only
    split
    · exact ⟨_, _, rfl⟩
    · exact ⟨_, _, rfl⟩
  · exact ⟨st.nodesByNodeIP, st.calls, rfl⟩

theorem deleteEgressNsClear_snd_frame (st : EgressState) (ns : NamespaceEgress) (x : String) :
    ∃ nv, (deleteEgressNsClear st ns x).2 = { st with namespacesByVNID := nv } := by
  unfold deleteEgressNsClear
  split
  · exact ⟨_, rfl⟩
  · exact ⟨st.namespacesByVNID, rfl⟩

theorem deleteEgressFinish_frame (st : EgressState) (ns : NamespaceEgress) :
    ∃ cs, deleteEgressFinish st ns = { st with calls := cs } := by
  unfold deleteEgressFinish
  split
  · exact ⟨_, rfl⟩
  · exact ⟨_, rfl⟩

theorem deleteEgressIP_frame (st : EgressState) (x : String) :
    ∃ nn nv cs, deleteEgressIP st x =
      { st with nodesByNodeIP := nn, namespacesByVNID := nv, calls := cs } := by
  unfold deleteEgressIP
  split
  · next nkey ns hn hns =>
    dsimp only
    obtain ⟨nn, cs, hp⟩ := deleteEgressNodePhase_frame st nkey x
      (getMarkForVNID ns.vnid st.masqueradeBit)
    rw [hp]
    obtain ⟨nv, hcl⟩ := deleteEgressNsClear_snd_frame
      { st with nodesByNodeIP := nn, calls := cs } ns x
    rw [hcl]
    obtain ⟨cs', hfin⟩ := deleteEgressFinish_frame
      { st with nodesByNodeIP := nn, namespacesByVNID := nv, calls := cs }
      (deleteEgressNsClear { st with nodesByNodeIP := nn, calls := cs } ns x).1
    rw [hfin]
    exact ⟨_, _, _, rfl⟩
  · exact ⟨st.nodesByNodeIP, st.namespacesByVNID, st.calls, rfl⟩

theorem processAddedIP_frame (n : String) (st : EgressState) (ip : String) :
    ∃ ne nn nv cs, processAddedIP n st ip = { st with
      nodesByEgressIP := ne, nodesByNodeIP := nn, namespacesByVNID := nv, calls := cs } := by
  unfold processAddedIP
  split
  · exact ⟨st.nodesByEgressIP, st.nodesByNodeIP, st.namespacesByVNID, st.calls, rfl⟩
  · obtain ⟨nn, nv, cs, hm⟩ := maybeAddEgressIP_frame
      { st with nodesByEgressIP := aset st.nodesByEgressIP ip n } ip
    rw [hm]
    exact ⟨_, _, _, _, rfl⟩

theorem processRemovedIP_frame (n : String) (st : EgressState) (ip : String) :
    ∃ ne nn nv cs, processRemovedIP n st ip = { st with
      nodesByEgressIP := ne, nodesByNodeIP := nn, namespacesByVNID := nv, calls := cs } := by
  unfold processRemovedIP
  split
  · obtain ⟨nn, nv, cs, hd⟩ := deleteEgressIP_frame st ip
    rw [hd]
    exact ⟨_, _, _, _, rfl⟩
  · exact ⟨st.nodesByEgressIP, st.nodesByNodeIP, st.namespacesByVNID, st.calls, rfl⟩

theorem foldl_processAddedIP_frame (n : String) (l : List String) (st : EgressState) :
    ∃ ne nn nv cs, l.foldl (processAddedIP n) st = { st with
      nodesByEgressIP := ne, nodesByNodeIP := nn, namespacesByVNID := nv, calls := cs } := by
  induction l generalizing st with
  | nil => exact ⟨st.nodesByEgressIP, st.nodesByNodeIP, st.namespacesByVNID, st.calls, rfl⟩
  | cons ip rest ih =>
    rw [List.foldl_cons]
    obtain ⟨ne, nn, nv, cs, hp⟩ := processAddedIP_frame n st ip
    obtain ⟨ne', nn', nv', cs', hrest⟩ := ih (processAddedIP n st ip)
    rw [hrest, hp]
    exact ⟨_, _, _, _, rfl⟩

theorem foldl_processRemovedIP_frame (n : String) (l : List String) (st : EgressState) :
    ∃ ne nn nv cs, l.foldl (processRemovedIP n) st = { st with
      nodesByEgressIP := ne, nodesByNodeIP := nn, namespacesByVNID := nv, calls := cs } := by
  induction l generalizing st with
  | nil => exact ⟨st.nodesByEgressIP, st.nodesByNodeIP, st.namespacesByVNID, st.calls, rfl⟩
  | cons ip rest ih =>
    rw [List.foldl_cons]
    obtain ⟨ne, nn, nv, cs, hp⟩ := processRemovedIP_frame n st ip
    obtain ⟨ne', nn', nv', cs', hrest⟩ := ih (processRemovedIP n st ip)
    rw [hrest, hp]
    exact ⟨_, _, _, _, rfl⟩

theorem updateNodeEgress_frame (st : EgressState) (n : String) (ips : List String) :
    ∃ ne nn nv cs, updateNodeEgress st n ips = { st with
      nodesByEgressIP := ne, nodesByNodeIP := nn, namespacesByVNID := nv, calls := cs } := by
  unfold updateNodeEgress
  split
  · split
    · exact ⟨st.nodesByEgressIP, st.nodesByNodeIP, st.namespacesByVNID, st.calls, rfl⟩
    · dsimp only
      rw [setDiff_nil_left, List.foldl_nil]
      obtain ⟨ne, nn, nv, cs, h⟩ := foldl_processAddedIP_frame n (setDiff (mkSet ips) [])
        { st with nodesByNodeIP := aset st.nodesByNodeIP n ⟨n, mkSet ips, []⟩ }
      rw [h]
      exact ⟨_, _, _, _, rfl⟩
  · next node hnode =>
    dsimp only
    by_cases hips : ips = []
    · rw [if_pos hips]
      obtain ⟨ne, nn, nv, cs, h1⟩ := foldl_processAddedIP_frame n
        (setDiff (mkSet ips) node.requestedIPs)
        { st with nodesByNodeIP := aerase st.nodesByNodeIP n }
      rw [h1]
      obtain ⟨ne', nn', nv', cs', h2⟩ := foldl_processRemovedIP_frame n
        (setDiff node.requestedIPs (mkSet ips))
        { st with
            nodesByEgressIP := ne
            nodesByNodeIP := nn
            namespacesByVNID := nv
            calls := cs }
      rw [h2]
      exact ⟨_, _, _, _, rfl⟩
    · rw [if_neg hips]
      obtain ⟨ne, nn, nv, cs, h1⟩ := foldl_processAddedIP_frame n
        (setDiff (mkSet ips) node.requestedIPs)
        { st with nodesByNodeIP := aset st.nodesByNodeIP n { node with requestedIPs := mkSet ips } }
      rw [h1]
      obtain ⟨ne', nn', nv', cs', h2⟩ := foldl_processRemovedIP_frame n
        (setDiff node.requestedIPs (mkSet ips))
        { st with
            nodesByEgressIP := ne
            nodesByNodeIP := nn
            namespacesByVNID := nv
            calls := cs }
      rw [h2]
      exact ⟨_, _, _, _, rfl⟩

theorem getOrCreateNs_snd_frame (st : EgressState) (v : Nat) :
    ∃ nv, (getOrCreateNs st v).2 = { st with namespacesByVNID := nv } := by
  unfold getOrCreateNs
  split
  · exact ⟨_, rfl⟩
  · exact ⟨st.namespacesByVNID, rfl⟩

theorem nsTeardownOnChange_snd_frame (st : EgressState) (ns : NamespaceEgress) (v : Nat)
    (x : String) : ∃ nn nv ne cs, (nsTeardownOnChange st ns v x).2 = { st with
      nodesByNodeIP := nn, namespacesByVNID := nv, namespacesByEgressIP := ne, calls := cs } := by
  unfold nsTeardownOnChange
  split
  · obtain ⟨nn, nv, cs, hd⟩ := deleteEgressIP_frame st x
    rw [hd]
    exact ⟨_, _, _, _, rfl⟩
  · exact ⟨st.nodesByNodeIP, st.namespacesByVNID, st.namespacesByEgressIP, st.calls, rfl⟩

theorem nsRegister_frame (st : EgressState) (ns : NamespaceEgress) (v : Nat) (x : String) :
    ∃ nn nv ne cs, nsRegister st ns v x = { st with
      nodesByNodeIP := nn, namespacesByVNID := nv, namespacesByEgressIP := ne, calls := cs } := by
  unfold nsRegister
  dsimp only
  obtain ⟨nn, nv, cs, hm⟩ := maybeAddEgressIP_frame
    { st with
        namespacesByVNID := aset st.namespacesByVNID v { ns with requestedIP := x }
        namespacesByEgressIP := aset st.namespacesByEgressIP x v } x
  rw [hm]
  exact ⟨_, _, _, _, rfl⟩

theorem updateNamespaceEgress_frame (st : EgressState) (v : Nat) (x : String) :
    ∃ nn nv ne cs, updateNamespaceEgress st v x = { st with
      nodesByNodeIP := nn, namespacesByVNID := nv, namespacesByEgressIP := ne, calls := cs } := by
  unfold updateNamespaceEgress
  obtain ⟨nv0, hg⟩ := getOrCreateNs_snd_frame st v
  rcases hgc : getOrCreateNs st v with ⟨ns0, st0⟩
  rw [hgc] at hg
  dsimp only at hg ⊢
  rw [hg]
  split
  · exact ⟨st.nodesByNodeIP, _, st.namespacesByEgressIP, st.calls, rfl⟩
  · split
    · exact ⟨st.nodesByNodeIP, _, st.namespacesByEgressIP, st.calls, rfl⟩
    · obtain ⟨nn, nv, ne, cs, ht⟩ :=
        nsTeardownOnChange_snd_frame { st with namespacesByVNID := nv0 } ns0 v x
      rcases htc : nsTeardownOnChange { st with namespacesByVNID := nv0 } ns0 v x with ⟨ns1, st1⟩
      rw [htc] at ht
      dsimp only at ht ⊢
      rw [ht]
      obtain ⟨nn', nv', ne', cs', hr⟩ := nsRegister_frame
        { st with
            nodesByNodeIP := nn
            namespacesByVNID := nv
            namespacesByEgressIP := ne
            calls := cs } ns1 v x
      rw [hr]
      exact ⟨_, _, _, _, rfl⟩

theorem deleteNamespaceEgress_frame (st : EgressState) (v : Nat) :
    ∃ nn nv ne cs, deleteNamespaceEgress st v = { st with
      nodesByNodeIP := nn, namespacesByVNID := nv, namespacesByEgressIP := ne, calls := cs } := by
  unfold deleteNamespaceEgress
  split
  · exact ⟨st.nodesByNodeIP, st.namespacesByVNID, st.namespacesByEgressIP, st.calls, rfl⟩
  · dsimp only
    split
    · obtain ⟨nn, nv, cs, hd⟩ := deleteEgressIP_frame _ _
      rw [hd]
      exact ⟨_, _, _, _, rfl⟩
    · exact ⟨_, _, _, _, rfl⟩

/-- C9: in the master's node watcher, an `Added` event for a node that
already has a persisted subnet with a different recorded IP deletes the
old record and recreates it with the event's IP while keeping the same
subnet CIDR; the `SubnetAllocator` is not consulted (its free pool is
unchanged and the trace gains only the registry delete and create). -/
theorem C9_reregister_keeps_cidr (st : MasterState) (nodeName nodeIP : String) (sub : Subnet)
    (hsub : alookup st.subnets nodeName = some sub) (hip : sub.nodeIP ≠ nodeIP) :
    alookup (watchNodeAdded st nodeName nodeIP).subnets nodeName =
      some { sub with nodeIP := nodeIP } ∧
    (Subnet.subnetIP { sub with nodeIP := nodeIP }) = sub.subnetIP ∧
    (watchNodeAdded st nodeName nodeIP).freeNetworks = st.freeNetworks ∧
    (watchNodeAdded st nodeName nodeIP).calls =
      st.calls ++ [MasterCall.deleteSubnet nodeName,
        MasterCall.createSubnet nodeName { sub with nodeIP := nodeIP }] := by
  unfold watchNodeAdded
  rw [hsub]
  dsimp only
  rw [if_pos hip]
  refine ⟨by simp, rfl, rfl, by simp⟩

theorem C9_witness :
    alookup (watchNodeAdded
        { subnets := [("node1", { nodeIP := "10.0.0.2", subnetIP := "10.128.0.0/23" })],
          freeNetworks := ["10.128.2.0/23"], calls := [] } "node1" "10.0.0.3").subnets "node1" =
      some { nodeIP := "10.0.0.3", subnetIP := "10.128.0.0/23" } ∧
    (Subnet.subnetIP { nodeIP := "10.0.0.3", subnetIP := "10.128.0.0/23" }) = "10.128.0.0/23" ∧
    (watchNodeAdded
        { subnets := [("node1", { nodeIP := "10.0.0.2", subnetIP := "10.128.0.0/23" })],
          freeNetworks := ["10.128.2.0/23"], calls := [] } "node1" "10.0.0.3").freeNetworks =
      ["10.128.2.0/23"] ∧
    (watchNodeAdded
        { subnets := [("node1", { nodeIP := "10.0.0.2", subnetIP := "10.128.0.0/23" })],
          freeNetworks := ["10.128.2.0/23"], calls := [] } "node1" "10.0.0.3").calls =
      [MasterCall.deleteSubnet "node1",
        MasterCall.createSubnet "node1" { nodeIP := "10.0.0.3", subnetIP := "10.128.0.0/23" }] :=
  C9_reregister_keeps_cidr
    { subnets := [("node1", { nodeIP := "10.0.0.2", subnetIP := "10.128.0.0/23" })],
      freeNetworks := ["10.128.2.0/23"], calls := [] }
    "node1" "10.0.0.3" { nodeIP := "10.0.0.2", subnetIP := "10.128.0.0/23" }
    (by decide) (by decide)

/-- C10: a non-deleted NetNamespace event carrying an empty EgressIPs list
is handled identically to a deleted event: both invoke
`deleteNamespaceEgress`, which (for a namespace whose only claimant entry
is its assigned IP) tears down the assignment and removes the namespace's
record from both `namespacesByVNID` and `namespacesByEgressIP`. -/
theorem C10_empty_list_is_deletion (st : EgressState) (v : Nat) (ips : List String)
    (ns : NamespaceEgress) (h1 : alookup st.namespacesByVNID v = some ns)
    (h2 : ns.assignedIP ≠ "")
    (h3 : ∀ ip, alookup st.namespacesByEgressIP ip = some v → ip = ns.assignedIP) :
    handleNetNamespaceEvent st false v [] = deleteNamespaceEgress st v ∧
    handleNetNamespaceEvent st true v ips = deleteNamespaceEgress st v ∧
    alookup (handleNetNamespaceEvent st false v []).namespacesByVNID v = none ∧
    (∀ ip, alookup (handleNetNamespaceEvent st false v []).namespacesByEgressIP ip ≠ some v) := by
  have he : handleNetNamespaceEvent st false v [] = deleteNamespaceEgress st v := rfl
  refine ⟨he, by cases ips <;> rfl, ?_, ?_⟩
  · rw [he]
    unfold deleteNamespaceEgress
    rw [h1]
    dsimp only
    rw [if_pos h2]
    obtain ⟨nn, nv, cs, hd⟩ := deleteEgressIP_frame
      { st with namespacesByVNID := aset st.namespacesByVNID v { ns with requestedIP := "" } }
      ns.assignedIP
    rw [hd]
    simp
  · rw [he]
    unfold deleteNamespaceEgress
    rw [h1]
    dsimp only
    rw [if_pos h2]
    obtain ⟨nn, nv, cs, hd⟩ := deleteEgressIP_frame
      { st with namespacesByVNID := aset st.namespacesByVNID v { ns with requestedIP := "" } }
      ns.assignedIP
    rw [hd]
    intro ip hip
    dsimp only at hip
    by_cases hx : ns.assignedIP = ip
    · rw [← hx, alookup_aerase_self] at hip
      exact Option.noConfusion hip
    · rw [alookup_aerase_ne _ _ _ hx] at hip
      exact hx (h3 ip hip).symm

theorem C10_witness :
    handleNetNamespaceEvent
        ⟨"10.0.0.1", 1, [], [], [(7, ⟨7, "10.0.0.9", "10.0.0.9", ""⟩)], [("10.0.0.9", 7)], []⟩
        false 7 [] =
      deleteNamespaceEgress
        ⟨"10.0.0.1", 1, [], [], [(7, ⟨7, "10.0.0.9", "10.0.0.9", ""⟩)], [("10.0.0.9", 7)], []⟩ 7 ∧
    alookup (handleNetNamespaceEvent
        ⟨"10.0.0.1", 1, [], [], [(7, ⟨7, "10.0.0.9", "10.0.0.9", ""⟩)], [("10.0.0.9", 7)], []⟩
        false 7 []).namespacesByVNID 7 = none := by
  have h := C10_empty_list_is_deletion
    ⟨"10.0.0.1", 1, [], [], [(7, ⟨7, "10.0.0.9", "10.0.0.9", ""⟩)], [("10.0.0.9", 7)], []⟩
    7 [] ⟨7, "10.0.0.9", "10.0.0.9", ""⟩
    (by decide) (by decide)
    (by
      intro ip h
      simp only [alookup_cons, alookup_nil] at h
      split at h
      · next heq => exact heq.symm
      · exact Option.noConfusion h)
  exact ⟨h.1, h.2.2.1⟩

/-- C7: when a node withdraws its claim on an egress IP that a namespace
still requests (here on the claimant node itself, with exactly that IP
removed from the node's list), the local address and NAT rule are removed
(the `release` token is emitted), the IP leaves the node's `assignedIPs`,
the namespace's `(assignedIP, nodeIP)` are cleared, and the namespace's
flow rule transitions to dropped. -/
theorem C7_withdraw_claim_drops (st : EgressState) (n x : String) (ips' : List String)
    (v : Nat) (rec : NodeEgress) (ns : NamespaceEgress)
    (hrec : alookup st.nodesByNodeIP n = some rec)
    (hips : ips' ≠ [])
    (hloc : n = st.localIP)
    (hxn : x ≠ st.localIP)
    (hxe : x ≠ "")
    (hclaim : alookup st.nodesByEgressIP x = some n)
    (hnsmap : alookup st.namespacesByEgressIP x = some v)
    (hns : alookup st.namespacesByVNID v = some ns)
    (hass : ns.assignedIP = x)
    (hreq : ns.requestedIP = x)
    (hdiffAdd : setDiff (mkSet ips') rec.requestedIPs = [])
    (hdiffRem : setDiff rec.requestedIPs (mkSet ips') = [x]) :
    (updateNodeEgress st n ips').calls =
      st.calls ++ [BackendCall.releaseIP x,
        BackendCall.setEgressDropped ns.vnid] ∧
    alookup (updateNodeEgress st n ips').namespacesByVNID ns.vnid =
      some { ns with assignedIP := "", nodeIP := "" } ∧
    alookup (updateNodeEgress st n ips').nodesByNodeIP n =
      some ⟨rec.nodeIP, mkSet ips', setDelete rec.assignedIPs x⟩ ∧
    alookup (updateNodeEgress st n ips').nodesByEgressIP x = none := by
  have hmain : updateNodeEgress st n ips' =
      { st with
          nodesByEgressIP := aerase st.nodesByEgressIP x
          nodesByNodeIP := aset (aset st.nodesByNodeIP n { rec with requestedIPs := mkSet ips' })
            n ⟨rec.nodeIP, mkSet ips', setDelete rec.assignedIPs x⟩
          namespacesByVNID := aset st.namespacesByVNID ns.vnid
            { ns with assignedIP := "", nodeIP := "" }
          calls := st.calls ++ [BackendCall.releaseIP x] ++
            [BackendCall.setEgressDropped ns.vnid] } := by
    unfold updateNodeEgress
    rw [hrec]
    dsimp only
    rw [if_neg hips, hdiffAdd, hdiffRem, List.foldl_nil, List.foldl_cons, List.foldl_nil]
    unfold processRemovedIP
    rw [if_pos hclaim]
    unfold deleteEgressIP
    dsimp only
    rw [hclaim, hnsmap]
    dsimp only [Option.bind]
    rw [hns]
    dsimp only
    unfold deleteEgressNodePhase
    dsimp only
    rw [if_pos hloc]
    unfold releaseEgressIP
    rw [if_neg hxn]
    dsimp only
    rw [alookup_aset_self]
    dsimp only
    unfold deleteEgressNsClear
    rw [if_pos hass]
    dsimp only
    unfold deleteEgressFinish
    dsimp only
    rw [if_neg (by rw [hreq]; exact hxe)]
  rw [hmain]
  refine ⟨by simp, by simp, ?_, by simp⟩
  dsimp only
  rw [alookup_aset_self]

theorem C7_witness :
    (updateNodeEgress
        ⟨"10.0.0.1", 1,
          [("10.0.0.1", ⟨"10.0.0.1", ["10.0.0.5", "10.0.0.6"], ["10.0.0.5"]⟩)],
          [("10.0.0.5", "10.0.0.1")],
          [(7, ⟨7, "10.0.0.5", "10.0.0.5", "10.0.0.1"⟩)],
          [("10.0.0.5", 7)], []⟩ "10.0.0.1" ["10.0.0.6"]).calls =
      [] ++ [BackendCall.releaseIP "10.0.0.5", BackendCall.setEgressDropped 7] ∧
    alookup (updateNodeEgress
        ⟨"10.0.0.1", 1,
          [("10.0.0.1", ⟨"10.0.0.1", ["10.0.0.5", "10.0.0.6"], ["10.0.0.5"]⟩)],
          [("10.0.0.5", "10.0.0.1")],
          [(7, ⟨7, "10.0.0.5", "10.0.0.5", "10.0.0.1"⟩)],
          [("10.0.0.5", 7)], []⟩ "10.0.0.1" ["10.0.0.6"]).namespacesByVNID 7 =
      some ⟨7, "10.0.0.5", "", ""⟩ ∧
    alookup (updateNodeEgress
        ⟨"10.0.0.1", 1,
          [("10.0.0.1", ⟨"10.0.0.1", ["10.0.0.5", "10.0.0.6"], ["10.0.0.5"]⟩)],
          [("10.0.0.5", "10.0.0.1")],
          [(7, ⟨7, "10.0.0.5", "10.0.0.5", "10.0.0.1"⟩)],
          [("10.0.0.5", 7)], []⟩ "10.0.0.1" ["10.0.0.6"]).nodesByNodeIP "10.0.0.1" =
      some ⟨"10.0.0.1", mkSet ["10.0.0.6"], setDelete ["10.0.0.5"] "10.0.0.5"⟩ ∧
    alookup (updateNodeEgress
        ⟨"10.0.0.1", 1,
          [("10.0.0.1", ⟨"10.0.0.1", ["10.0.0.5", "10.0.0.6"], ["10.0.0.5"]⟩)],
          [("10.0.0.5", "10.0.0.1")],
          [(7, ⟨7, "10.0.0.5", "10.0.0.5", "10.0.0.1"⟩)],
          [("10.0.0.5", 7)], []⟩ "10.0.0.1" ["10.0.0.6"]).nodesByEgressIP "10.0.0.5" = none :=
  C7_withdraw_claim_drops
    ⟨"10.0.0.1", 1,
      [("10.0.0.1", ⟨"10.0.0.1", ["10.0.0.5", "10.0.0.6"], ["10.0.0.5"]⟩)],
      [("10.0.0.5", "10.0.0.1")],
      [(7, ⟨7, "10.0.0.5", "10.0.0.5", "10.0.0.1"⟩)],
      [("10.0.0.5", 7)], []⟩
    "10.0.0.1" "10.0.0.5" ["10.0.0.6"] 7
    ⟨"10.0.0.1", ["10.0.0.5", "10.0.0.6"], ["10.0.0.5"]⟩
    ⟨7, "10.0.0.5", "10.0.0.5", "10.0.0.1"⟩
    (by decide) (by decide) (by decide) (by decide) (by decide) (by decide)
    (by decide) (by decide) (by decide) (by decide) (by decide) (by decide)

theorem assignEgressIP_calls (st : EgressState) (x m : String) :
    (assignEgressIP st x m).2.calls = st.calls ∨
    (assignEgressIP st x m).2.calls = st.calls ++ [BackendCall.claimIP x] := by
  unfold assignEgressIP
  split
  · left; rfl
  · right; rfl

theorem releaseEgressIP_calls (st : EgressState) (x m : String) :
    (releaseEgressIP st x m).2.calls = st.calls ∨
    (releaseEgressIP st x m).2.calls = st.calls ++ [BackendCall.releaseIP x] := by
  unfold releaseEgressIP
  split
  · left; rfl
  · right; rfl

theorem maybeAddNodePhase_calls (st : EgressState) (x m : String) :
    (maybeAddNodePhase st x m).2.calls = st.calls ∨
    (maybeAddNodePhase st x m).2.calls = st.calls ++ [BackendCall.claimIP x] := by
  unfold maybeAddNodePhase
  split
  · dsimp only
    split
    · split
      · split
        next heq =>
          have hst : _ = (assignEgressIP _ x m).2 := (congrArg Prod.snd heq).symm
          dsimp only at hst
          rw [hst]
          exact assignEgressIP_calls _ x m
        next heq =>
          have hst : _ = (assignEgressIP _ x m).2 := (congrArg Prod.snd heq).symm
          dsimp only at hst
          rw [hst]
          exact assignEgressIP_calls _ x m
      · left; rfl
    · left; rfl
  · left; rfl

theorem maybeAddFinish_calls (st : EgressState) (ns : NamespaceEgress) (x nodeIP m : String) :
    (maybeAddFinish st ns x nodeIP m).calls = st.calls ∨
    ∃ vn nip, (maybeAddFinish st ns x nodeIP m).calls =
      st.calls ++ [BackendCall.setEgressViaIP vn nip m] := by
  unfold maybeAddFinish
  split
  · right; exact ⟨_, _, rfl⟩
  · left; rfl

theorem maybeAddEgressIP_claims (st : EgressState) (x c : String)
    (h : BackendCall.claimIP c ∈ (maybeAddEgressIP st x).calls) :
    c = x ∨ BackendCall.claimIP c ∈ st.calls := by
  unfold maybeAddEgressIP at h
  split at h
  · right; exact h
  · next ns hns =>
    dsimp only at h
    rcases maybeAddFinish_calls (maybeAddNodePhase st x (getMarkForVNID ns.vnid st.masqueradeBit)).2
        ns x (maybeAddNodePhase st x (getMarkForVNID ns.vnid st.masqueradeBit)).1
        (getMarkForVNID ns.vnid st.masqueradeBit) with hf | ⟨vn, nip, hf⟩
    · rw [hf] at h
      rcases maybeAddNodePhase_calls st x (getMarkForVNID ns.vnid st.masqueradeBit) with hp | hp
      · rw [hp] at h
        right; exact h
      · rw [hp] at h
        rcases List.mem_append.mp h with h | h
        · right; exact h
        · left
          have := List.mem_singleton.mp h
          injection this
    · rw [hf] at h
      rcases List.mem_append.mp h with h | h
      · rcases maybeAddNodePhase_calls st x (getMarkForVNID ns.vnid st.masqueradeBit) with hp | hp
        · rw [hp] at h
          right; exact h
        · rw [hp] at h
          rcases List.mem_append.mp h with h | h
          · right; exact h
          · left
            have := List.mem_singleton.mp h
            injection this
      · have := List.mem_singleton.mp h
        exact absurd this (by simp)

theorem deleteEgressNodePhase_calls (st : EgressState) (nkey x m : String) :
    (deleteEgressNodePhase st nkey x m).calls = st.calls ∨
    (deleteEgressNodePhase st nkey x m).calls = st.calls ++ [BackendCall.releaseIP x] := by
  unfold deleteEgressNodePhase
  split
  · obtain ⟨cs, hc⟩ := releaseEgressIP_snd_frame st x m
    have hr := releaseEgressIP_calls st x m
    rw [hc] at hr ⊢
    dsimp only at hr ⊢
    split
    · rcases hr with hr | hr
      · left; rw [hr]
      · right; rw [hr]
    · rcases hr with hr | hr
      · left; rw [hr]
      · right; rw [hr]
  · left; rfl

theorem deleteEgressIP_no_new_claims (st : EgressState) (x c : String)
    (h : BackendCall.claimIP c ∈ (deleteEgressIP st x).calls) :
    BackendCall.claimIP c ∈ st.calls := by
  unfold deleteEgressIP at h
  split at h
  · next nkey ns hn hns =>
    dsimp only at h
    unfold deleteEgressFinish at h
    obtain ⟨nv, hcl⟩ := deleteEgressNsClear_snd_frame
      (deleteEgressNodePhase st nkey x (getMarkForVNID ns.vnid st.masqueradeBit)) ns x
    rw [hcl] at h
    have hp := deleteEgressNodePhase_calls st nkey x (getMarkForVNID ns.vnid st.masqueradeBit)
    split at h <;> dsimp only at h <;> rcases hp with hp | hp <;> rw [hp] at h <;>
        rcases List.mem_append.mp h with h | h
    · exact h
    · exact absurd (List.mem_singleton.mp h) (by simp)
    · rcases List.mem_append.mp h with h | h
      · exact h
      · exact absurd (List.mem_singleton.mp h) (by simp)
    · exact absurd (List.mem_singleton.mp h) (by simp)
    · exact h
    · exact absurd (List.mem_singleton.mp h) (by simp)
    · rcases List.mem_append.mp h with h | h
      · exact h
      · exact absurd (List.mem_singleton.mp h) (by simp)
    · exact absurd (List.mem_singleton.mp h) (by simp)
  · exact h

theorem maybeAddNodePhase_nodes_shape (st : EgressState) (ip m : String) :
    (maybeAddNodePhase st ip m).2.nodesByNodeIP = st.nodesByNodeIP ∨
    ∃ nkey node, alookup st.nodesByNodeIP nkey = some node ∧
      (maybeAddNodePhase st ip m).2.nodesByNodeIP =
        aset st.nodesByNodeIP nkey { node with assignedIPs := setInsert node.assignedIPs ip } := by
  unfold maybeAddNodePhase
  split
  · next nkey node heq1 heq2 =>
    rw [heq1, Option.some_bind] at heq2
    dsimp only
    split
    · split
      · split
        next heq =>
          have hst : _ = (assignEgressIP _ ip m).2 := (congrArg Prod.snd heq).symm
          dsimp only at hst
          obtain ⟨cs, hc⟩ := assignEgressIP_snd_frame
            { st with
              nodesByNodeIP := aset st.nodesByNodeIP nkey
                { node with assignedIPs := setInsert node.assignedIPs ip } } ip m
          rw [hst, hc]
          right
          exact ⟨nkey, node, heq2, rfl⟩
        next heq =>
          have hst : _ = (assignEgressIP _ ip m).2 := (congrArg Prod.snd heq).symm
          dsimp only at hst
          obtain ⟨cs, hc⟩ := assignEgressIP_snd_frame
            { st with
              nodesByNodeIP := aset st.nodesByNodeIP nkey
                { node with assignedIPs := setInsert node.assignedIPs ip } } ip m
          rw [hst, hc]
          right
          exact ⟨nkey, node, heq2, rfl⟩
      · right
        exact ⟨nkey, node, heq2, rfl⟩
    · left; rfl
  · left; rfl

theorem maybeAddEgressIP_nodes_shape (st : EgressState) (ip : String) :
    (maybeAddEgressIP st ip).nodesByNodeIP = st.nodesByNodeIP ∨
    ∃ nkey node, alookup st.nodesByNodeIP nkey = some node ∧
      (maybeAddEgressIP st ip).nodesByNodeIP =
        aset st.nodesByNodeIP nkey { node with assignedIPs := setInsert node.assignedIPs ip } := by
  unfold maybeAddEgressIP
  split
  · left; rfl
  · next ns hns =>
    dsimp only
    obtain ⟨nv, cs, hf⟩ := maybeAddFinish_frame
      (maybeAddNodePhase st ip (getMarkForVNID ns.vnid st.masqueradeBit)).2
      ns ip (maybeAddNodePhase st ip (getMarkForVNID ns.vnid st.masqueradeBit)).1
      (getMarkForVNID ns.vnid st.masqueradeBit)
    rw [hf]
    exact maybeAddNodePhase_nodes_shape st ip (getMarkForVNID ns.vnid st.masqueradeBit)

theorem deleteEgressNodePhase_nodes_shape (st : EgressState) (nkey ip m : String) :
    (deleteEgressNodePhase st nkey ip m).nodesByNodeIP = st.nodesByNodeIP ∨
    ∃ node, alookup st.nodesByNodeIP nkey = some node ∧
      (deleteEgressNodePhase st nkey ip m).nodesByNodeIP =
        aset st.nodesByNodeIP nkey { node with assignedIPs := setDelete node.assignedIPs ip } := by
  unfold deleteEgressNodePhase
  split
  · obtain ⟨cs, hc⟩ := releaseEgressIP_snd_frame st ip m
    rw [hc]
    dsimp only
    split
    · next node heq => right; exact ⟨node, heq, rfl⟩
    · left; rfl
  · left; rfl

theorem deleteEgressIP_nodes_shape (st : EgressState) (ip : String) :
    (deleteEgressIP st ip).nodesByNodeIP = st.nodesByNodeIP ∨
    ∃ nkey node, alookup st.nodesByNodeIP nkey = some node ∧
      (deleteEgressIP st ip).nodesByNodeIP =
        aset st.nodesByNodeIP nkey { node with assignedIPs := setDelete node.assignedIPs ip } := by
  unfold deleteEgressIP
  split
  · next nkey ns hn hns =>
    dsimp only
    obtain ⟨cs, hfin⟩ := deleteEgressFinish_frame
      (deleteEgressNsClear (deleteEgressNodePhase st nkey ip
        (getMarkForVNID ns.vnid st.masqueradeBit)) ns ip).2
      (deleteEgressNsClear (deleteEgressNodePhase st nkey ip
        (getMarkForVNID ns.vnid st.masqueradeBit)) ns ip).1
    obtain ⟨nv, hcl⟩ := deleteEgressNsClear_snd_frame
      (deleteEgressNodePhase st nkey ip (getMarkForVNID ns.vnid st.masqueradeBit)) ns ip
    rw [hfin, hcl]
    rcases deleteEgressNodePhase_nodes_shape st nkey ip
        (getMarkForVNID ns.vnid st.masqueradeBit) with hs | ⟨node, hlk, hs⟩
    · left; exact hs
    · right; exact ⟨nkey, node, hlk, hs⟩
  · left; rfl

theorem processAddedIP_protect (n2 n1 x ip : String) (st : EgressState) (hne : n1 ≠ n2)
    (hx : alookup st.nodesByEgressIP x = some n1)
    (hrec : ∀ rec, alookup st.nodesByNodeIP n2 = some rec → x ∉ rec.assignedIPs) :
    alookup (processAddedIP n2 st ip).nodesByEgressIP x = some n1 ∧
    (∀ rec, alookup (processAddedIP n2 st ip).nodesByNodeIP n2 = some rec →
      x ∉ rec.assignedIPs) ∧
    (BackendCall.claimIP x ∈ (processAddedIP n2 st ip).calls →
      BackendCall.claimIP x ∈ st.calls) := by
  unfold processAddedIP
  split
  · exact ⟨hx, hrec, fun h => h⟩
  · next hfree =>
    have hipx : ip ≠ x := by
      intro he
      rw [he, hx] at hfree
      exact Option.noConfusion hfree
    obtain ⟨nn, nv, cs, hm⟩ := maybeAddEgressIP_frame
      { st with nodesByEgressIP := aset st.nodesByEgressIP ip n2 } ip
    refine ⟨?_, ?_, ?_⟩
    · rw [hm]
      dsimp only
      rw [alookup_aset_ne _ _ _ _ hipx]
      exact hx
    · intro rec hlk
      rcases maybeAddEgressIP_nodes_shape
          { st with nodesByEgressIP := aset st.nodesByEgressIP ip n2 } ip with hs | ⟨nk, node, hnd, hs⟩
      · rw [hm] at hs hlk
        dsimp only at hs hlk
        rw [hs] at hlk
        exact hrec rec hlk
      · rw [hm] at hs hlk
        dsimp only at hs hnd hlk
        rw [hs] at hlk
        by_cases hk : nk = n2
        · rw [hk] at hlk hnd
          rw [alookup_aset_self] at hlk
          have hrec' := hrec node hnd
          cases hlk
          intro hmem
          rcases (mem_setInsert _ _ _).mp hmem with hmem | hmem
          · exact hrec' hmem
          · exact hipx hmem.symm
        · rw [alookup_aset_ne _ _ _ _ hk] at hlk
          exact hrec rec hlk
    · intro hcl
      rw [hm] at hcl
      dsimp only at hcl
      rcases maybeAddEgressIP_claims
          { st with nodesByEgressIP := aset st.nodesByEgressIP ip n2 } ip x (by rw [hm]; exact hcl)
          with he | hmem
      · exact absurd he.symm hipx
      · exact hmem

theorem processRemovedIP_protect (n2 n1 x ip : String) (st : EgressState) (hne : n1 ≠ n2)
    (hx : alookup st.nodesByEgressIP x = some n1)
    (hrec : ∀ rec, alookup st.nodesByNodeIP n2 = some rec → x ∉ rec.assignedIPs) :
    alookup (processRemovedIP n2 st ip).nodesByEgressIP x = some n1 ∧
    (∀ rec, alookup (processRemovedIP n2 st ip).nodesByNodeIP n2 = some rec →
      x ∉ rec.assignedIPs) ∧
    (BackendCall.claimIP x ∈ (processRemovedIP n2 st ip).calls →
      BackendCall.claimIP x ∈ st.calls) := by
  unfold processRemovedIP
  split
  · next hown =>
    have hipx : ip ≠ x := by
      intro he
      rw [he, hx] at hown
      have : n1 = n2 := Option.some.inj hown
      exact hne this
    obtain ⟨nn, nv, cs, hd⟩ := deleteEgressIP_frame st ip
    refine ⟨?_, ?_, ?_⟩
    · rw [hd]
      dsimp only
      rw [alookup_aerase_ne _ _ _ hipx]
      exact hx
    · intro rec hlk
      rcases deleteEgressIP_nodes_shape st ip with hs | ⟨nk, node, hnd, hs⟩
      · rw [hd] at hs hlk
        dsimp only at hs hlk
        rw [hs] at hlk
        exact hrec rec hlk
      · rw [hd] at hs hlk
        dsimp only at hs hlk
        rw [hs] at hlk
        by_cases hk : nk = n2
        · rw [hk] at hlk hnd
          rw [alookup_aset_self] at hlk
          have hrec' := hrec node hnd
          cases hlk
          intro hmem
          exact hrec' ((mem_setDelete _ _ _).mp hmem).1
        · rw [alookup_aset_ne _ _ _ _ hk] at hlk
          exact hrec rec hlk
    · intro hcl
      rw [hd] at hcl
      dsimp only at hcl
      exact deleteEgressIP_no_new_claims st ip x (by rw [hd]; exact hcl)
  · exact ⟨hx, hrec, fun h => h⟩

theorem foldl_processAddedIP_protect (n2 n1 x : String) (hne : n1 ≠ n2) (L : List String) :
    ∀ st : EgressState, alookup st.nodesByEgressIP x = some n1 →
    (∀ rec, alookup st.nodesByNodeIP n2 = some rec → x ∉ rec.assignedIPs) →
    alookup (L.foldl (processAddedIP n2) st).nodesByEgressIP x = some n1 ∧
    (∀ rec, alookup (L.foldl (processAddedIP n2) st).nodesByNodeIP n2 = some rec →
      x ∉ rec.assignedIPs) ∧
    (BackendCall.claimIP x ∈ (L.foldl (processAddedIP n2) st).calls →
      BackendCall.claimIP x ∈ st.calls) := by
  induction L with
  | nil => exact fun st hx hrec => ⟨hx, hrec, fun h => h⟩
  | cons ip rest ih =>
    intro st hx hrec
    rw [List.foldl_cons]
    obtain ⟨h1, h2, h3⟩ := processAddedIP_protect n2 n1 x ip st hne hx hrec
    obtain ⟨g1, g2, g3⟩ := ih (processAddedIP n2 st ip) h1 h2
    exact ⟨g1, g2, fun h => h3 (g3 h)⟩

theorem foldl_processRemovedIP_protect (n2 n1 x : String) (hne : n1 ≠ n2) (L : List String) :
    ∀ st : EgressState, alookup st.nodesByEgressIP x = some n1 →
    (∀ rec, alookup st.nodesByNodeIP n2 = some rec → x ∉ rec.assignedIPs) →
    alookup (L.foldl (processRemovedIP n2) st).nodesByEgressIP x = some n1 ∧
    (∀ rec, alookup (L.foldl (processRemovedIP n2) st).nodesByNodeIP n2 = some rec →
      x ∉ rec.assignedIPs) ∧
    (BackendCall.claimIP x ∈ (L.foldl (processRemovedIP n2) st).calls →
      BackendCall.claimIP x ∈ st.calls) := by
  induction L with
  | nil => exact fun st hx hrec => ⟨hx, hrec, fun h => h⟩
  | cons ip rest ih =>
    intro st hx hrec
    rw [List.foldl_cons]
    obtain ⟨h1, h2, h3⟩ := processRemovedIP_protect n2 n1 x ip st hne hx hrec
    obtain ⟨g1, g2, g3⟩ := ih (processRemovedIP n2 st ip) h1 h2
    exact ⟨g1, g2, fun h => h3 (g3 h)⟩

/-- C3: when two different nodes request the same egress IP, the first
claimant registered in `nodesByEgressIP` stays authoritative across any
`updateNodeEgress` call of the second node: the 1:1 map still names the
first claimant, the rejected node never marks the IP assigned, and no
local-assignment `claim` token for the IP is emitted (the second claim is
only logged).  The conflict log line itself is outside the model. -/
theorem C3_first_claimant_wins (st : EgressState) (n1 n2 x : String) (ips : List String)
    (hx : alookup st.nodesByEgressIP x = some n1) (hne : n1 ≠ n2)
    (hxips : x ∈ ips)
    (hrec0 : ∀ rec, alookup st.nodesByNodeIP n2 = some rec → x ∉ rec.assignedIPs) :
    alookup (updateNodeEgress st n2 ips).nodesByEgressIP x = some n1 ∧
    (∀ rec, alookup (updateNodeEgress st n2 ips).nodesByNodeIP n2 = some rec →
      x ∉ rec.assignedIPs) ∧
    (BackendCall.claimIP x ∈ (updateNodeEgress st n2 ips).calls →
      BackendCall.claimIP x ∈ st.calls) := by
  have hips : ips ≠ [] := by
    intro h
    rw [h] at hxips
    exact absurd hxips (List.not_mem_nil x)
  unfold updateNodeEgress
  cases hnode : alookup st.nodesByNodeIP n2 with
  | none =>
    dsimp only
    rw [if_neg hips]
    obtain ⟨a1, a2, a3⟩ := foldl_processAddedIP_protect n2 n1 x hne (setDiff (mkSet ips) [])
      { st with nodesByNodeIP := aset st.nodesByNodeIP n2 ⟨n2, mkSet ips, []⟩ }
      hx
      (by
        intro rec hlk
        dsimp only at hlk
        rw [alookup_aset_self] at hlk
        cases hlk
        exact List.not_mem_nil x)
    obtain ⟨b1, b2, b3⟩ := foldl_processRemovedIP_protect n2 n1 x hne (setDiff [] (mkSet ips))
      _ a1 a2
    exact ⟨b1, b2, fun h => a3 (b3 h)⟩
  | some rec =>
    dsimp only
    rw [if_neg hips]
    obtain ⟨a1, a2, a3⟩ := foldl_processAddedIP_protect n2 n1 x hne
      (setDiff (mkSet ips) rec.requestedIPs)
      { st with nodesByNodeIP := aset st.nodesByNodeIP n2 { rec with requestedIPs := mkSet ips } }
      hx
      (by
        intro rec' hlk
        dsimp only at hlk
        rw [alookup_aset_self] at hlk
        cases hlk
        exact hrec0 rec hnode)
    obtain ⟨b1, b2, b3⟩ := foldl_processRemovedIP_protect n2 n1 x hne
      (setDiff rec.requestedIPs (mkSet ips)) _ a1 a2
    exact ⟨b1, b2, fun h => a3 (b3 h)⟩

theorem C3_witness :
    alookup (updateNodeEgress
        ⟨"10.0.0.1", 1, [("10.0.0.2", ⟨"10.0.0.2", ["10.0.0.5"], []⟩)],
          [("10.0.0.5", "10.0.0.2")], [], [], []⟩ "10.0.0.3" ["10.0.0.5"]).nodesByEgressIP
      "10.0.0.5" = some "10.0.0.2" ∧
    (∀ rec, alookup (updateNodeEgress
        ⟨"10.0.0.1", 1, [("10.0.0.2", ⟨"10.0.0.2", ["10.0.0.5"], []⟩)],
          [("10.0.0.5", "10.0.0.2")], [], [], []⟩ "10.0.0.3" ["10.0.0.5"]).nodesByNodeIP
      "10.0.0.3" = some rec → "10.0.0.5" ∉ rec.assignedIPs) ∧
    (BackendCall.claimIP "10.0.0.5" ∈ (updateNodeEgress
        ⟨"10.0.0.1", 1, [("10.0.0.2", ⟨"10.0.0.2", ["10.0.0.5"], []⟩)],
          [("10.0.0.5", "10.0.0.2")], [], [], []⟩ "10.0.0.3" ["10.0.0.5"]).calls →
      BackendCall.claimIP "10.0.0.5" ∈
        (⟨"10.0.0.1", 1, [("10.0.0.2", ⟨"10.0.0.2", ["10.0.0.5"], []⟩)],
          [("10.0.0.5", "10.0.0.2")], [], [], []⟩ : EgressState).calls) :=
  C3_first_claimant_wins
    ⟨"10.0.0.1", 1, [("10.0.0.2", ⟨"10.0.0.2", ["10.0.0.5"], []⟩)],
      [("10.0.0.5", "10.0.0.2")], [], [], []⟩
    "10.0.0.2" "10.0.0.3" "10.0.0.5" ["10.0.0.5"]
    (by decide) (by decide) (by decide)
    (by
      intro rec hlk
      simp only [alookup_cons, alookup_nil] at hlk
      split at hlk
      · next heq => exact absurd heq (by decide)
      · exact Option.noConfusion hlk)

theorem updateNodeEgress_none_nil (st : EgressState) (n : String) (ips : List String)
    (h : alookup st.nodesByNodeIP n = none) (hips : ips = []) :
    updateNodeEgress st n ips = st := by
  unfold updateNodeEgress
  rw [h]
  dsimp only
  rw [if_pos hips]

theorem updateNodeEgress_none_cons (st : EgressState) (n : String) (ips : List String)
    (h : alookup st.nodesByNodeIP n = none) (hips : ips ≠ []) :
    updateNodeEgress st n ips =
      (setDiff [] (mkSet ips)).foldl (processRemovedIP n)
        ((setDiff (mkSet ips) []).foldl (processAddedIP n)
          { st with nodesByNodeIP := aset st.nodesByNodeIP n ⟨n, mkSet ips, []⟩ }) := by
  unfold updateNodeEgress
  rw [h]
  dsimp only
  rw [if_neg hips]

theorem updateNodeEgress_some_nil (st : EgressState) (n : String) (ips : List String)
    (node : NodeEgress) (h : alookup st.nodesByNodeIP n = some node) (hips : ips = []) :
    updateNodeEgress st n ips =
      (setDiff node.requestedIPs (mkSet ips)).foldl (processRemovedIP n)
        ((setDiff (mkSet ips) node.requestedIPs).foldl (processAddedIP n)
          { st with nodesByNodeIP := aerase st.nodesByNodeIP n }) := by
  unfold updateNodeEgress
  rw [h]
  dsimp only
  rw [if_pos hips]

theorem updateNodeEgress_some_cons (st : EgressState) (n : String) (ips : List String)
    (node : NodeEgress) (h : alookup st.nodesByNodeIP n = some node) (hips : ips ≠ []) :
    updateNodeEgress st n ips =
      (setDiff node.requestedIPs (mkSet ips)).foldl (processRemovedIP n)
        ((setDiff (mkSet ips) node.requestedIPs).foldl (processAddedIP n)
          { st with
            nodesByNodeIP := aset st.nodesByNodeIP n { node with requestedIPs := mkSet ips } }) := by
  unfold updateNodeEgress
  rw [h]
  dsimp only
  rw [if_neg hips]

theorem getOrCreateNs_none (st : EgressState) (v : Nat)
    (h : alookup st.namespacesByVNID v = none) :
    getOrCreateNs st v = (⟨v, "", "", ""⟩,
      { st with namespacesByVNID := aset st.namespacesByVNID v ⟨v, "", "", ""⟩ }) := by
  unfold getOrCreateNs
  rw [h]

theorem getOrCreateNs_some (st : EgressState) (v : Nat) (ns : NamespaceEgress)
    (h : alookup st.namespacesByVNID v = some ns) :
    getOrCreateNs st v = (ns, st) := by
  unfold getOrCreateNs
  rw [h]

theorem updateNamespaceEgress_noop (st st1 : EgressState) (v : Nat) (x : String)
    (ns : NamespaceEgress) (hg : getOrCreateNs st v = (ns, st1)) (h : ns.requestedIP = x) :
    updateNamespaceEgress st v x = st1 := by
  unfold updateNamespaceEgress
  rw [hg]
  dsimp only
  rw [if_pos h]

theorem updateNamespaceEgress_conflict (st st1 : EgressState) (v : Nat) (x : String)
    (ns : NamespaceEgress) (w : Nat) (hg : getOrCreateNs st v = (ns, st1))
    (h1 : ns.requestedIP ≠ x) (h2 : alookup st1.namespacesByEgressIP x = some w) :
    updateNamespaceEgress st v x = st1 := by
  unfold updateNamespaceEgress
  rw [hg]
  dsimp only
  rw [if_neg h1, h2]

theorem updateNamespaceEgress_main (st st1 : EgressState) (v : Nat) (x : String)
    (ns : NamespaceEgress) (hg : getOrCreateNs st v = (ns, st1))
    (h1 : ns.requestedIP ≠ x) (h2 : alookup st1.namespacesByEgressIP x = none) :
    updateNamespaceEgress st v x =
      nsRegister (nsTeardownOnChange st1 ns v x).2 (nsTeardownOnChange st1 ns v x).1 v x := by
  unfold updateNamespaceEgress
  rw [hg]
  dsimp only
  rw [if_neg h1, h2]

theorem maybeAddEgressIP_ns_shape (st : EgressState) (ip : String) :
    (maybeAddEgressIP st ip).namespacesByVNID = st.namespacesByVNID ∨
    ∃ ns0 nodeIP, (alookup st.namespacesByEgressIP ip).bind (alookup st.namespacesByVNID) =
        some ns0 ∧
      (maybeAddEgressIP st ip).namespacesByVNID =
        aset st.namespacesByVNID ns0.vnid { ns0 with assignedIP := ip, nodeIP := nodeIP } := by
  unfold maybeAddEgressIP
  split
  · left; rfl
  · next ns hns =>
    dsimp only
    obtain ⟨nn, cs, hp⟩ := maybeAddNodePhase_frame st ip (getMarkForVNID ns.vnid st.masqueradeBit)
    rw [hp]
    unfold maybeAddFinish
    split
    · right
      exact ⟨ns, (maybeAddNodePhase st ip (getMarkForVNID ns.vnid st.masqueradeBit)).1, hns, rfl⟩
    · left; rfl

theorem nsRegister_requested (st : EgressState) (ns : NamespaceEgress) (v : Nat) (x : String) :
    ∃ ns', alookup (nsRegister st ns v x).namespacesByVNID v = some ns' ∧
      ns'.requestedIP = x := by
  unfold nsRegister
  dsimp only
  rcases maybeAddEgressIP_ns_shape
      { st with
          namespacesByVNID := aset st.namespacesByVNID v { ns with requestedIP := x }
          namespacesByEgressIP := aset st.namespacesByEgressIP x v } x with hs | ⟨ns0, nip, hb, hs⟩
  · rw [hs]
    dsimp only
    rw [alookup_aset_self]
    exact ⟨_, rfl, rfl⟩
  · rw [hs]
    dsimp only at hb ⊢
    rw [alookup_aset_self, Option.some_bind, alookup_aset_self] at hb
    have hns0 : ns0 = { ns with requestedIP := x } := (Option.some.inj hb).symm
    by_cases hv : ns0.vnid = v
    · rw [hv, alookup_aset_self]
      refine ⟨_, rfl, ?_⟩
      rw [hns0]
    · rw [alookup_aset_ne _ _ _ _ hv, alookup_aset_self]
      exact ⟨_, rfl, rfl⟩

theorem processAddedIP_node_assigned_only (nodeIP : String) (st : EgressState) (ip n : String) :
    alookup (processAddedIP nodeIP st ip).nodesByNodeIP n = alookup st.nodesByNodeIP n ∨
    ∃ node A, alookup st.nodesByNodeIP n = some node ∧
      alookup (processAddedIP nodeIP st ip).nodesByNodeIP n =
        some { node with assignedIPs := A } := by
  unfold processAddedIP
  split
  · left; rfl
  · obtain ⟨nn, nv, cs, hm⟩ := maybeAddEgressIP_frame
      { st with nodesByEgressIP := aset st.nodesByEgressIP ip nodeIP } ip
    rcases maybeAddEgressIP_nodes_shape
        { st with nodesByEgressIP := aset st.nodesByEgressIP ip nodeIP } ip
        with hs | ⟨nk, node, hnd, hs⟩
    · left
      rw [hm] at hs ⊢
      dsimp only at hs ⊢
      rw [hs]
    · rw [hm] at hs ⊢
      dsimp only at hs hnd ⊢
      rw [hs]
      by_cases hk : nk = n
      · right
        rw [hk] at hnd ⊢
        rw [alookup_aset_self]
        exact ⟨node, _, hnd, rfl⟩
      · left
        rw [alookup_aset_ne _ _ _ _ hk]

theorem processRemovedIP_node_assigned_only (nodeIP : String) (st : EgressState) (ip n : String) :
    alookup (processRemovedIP nodeIP st ip).nodesByNodeIP n = alookup st.nodesByNodeIP n ∨
    ∃ node A, alookup st.nodesByNodeIP n = some node ∧
      alookup (processRemovedIP nodeIP st ip).nodesByNodeIP n =
        some { node with assignedIPs := A } := by
  unfold processRemovedIP
  split
  · obtain ⟨nn, nv, cs, hd⟩ := deleteEgressIP_frame st ip
    rcases deleteEgressIP_nodes_shape st ip with hs | ⟨nk, node, hnd, hs⟩
    · left
      rw [hd] at hs ⊢
      dsimp only at hs ⊢
      rw [hs]
    · rw [hd] at hs ⊢
      dsimp only at hs hnd ⊢
      rw [hs]
      by_cases hk : nk = n
      · right
        rw [hk] at hnd ⊢
        rw [alookup_aset_self]
        exact ⟨node, _, hnd, rfl⟩
      · left
        rw [alookup_aset_ne _ _ _ _ hk]
  · left; rfl

theorem foldl_node_assigned_only (f : EgressState → String → EgressState) (n : String)
    (hf : ∀ st ip, alookup (f st ip).nodesByNodeIP n = alookup st.nodesByNodeIP n ∨
      ∃ node A, alookup st.nodesByNodeIP n = some node ∧
        alookup (f st ip).nodesByNodeIP n = some { node with assignedIPs := A })
    (L : List String) :
    ∀ st : EgressState,
      alookup (L.foldl f st).nodesByNodeIP n = alookup st.nodesByNodeIP n ∨
      ∃ node A, alookup st.nodesByNodeIP n = some node ∧
        alookup (L.foldl f st).nodesByNodeIP n = some { node with assignedIPs := A } := by
  induction L with
  | nil => exact fun st => Or.inl rfl
  | cons ip rest ih =>
    intro st
    rw [List.foldl_cons]
    rcases hf st ip with h1 | ⟨node, A, hnd, h1⟩ <;>
      rcases ih (f st ip) with h2 | ⟨node2, A2, hnd2, h2⟩
    · left; rw [h2, h1]
    · rw [h1] at hnd2
      right; exact ⟨node2, A2, hnd2, h2⟩
    · right
      rw [h2, h1]
      exact ⟨node, A, hnd, rfl⟩
    · right
      rw [h1] at hnd2
      have hn2 : node2 = { node with assignedIPs := A } := (Option.some.inj hnd2).symm
      refine ⟨node, A2, hnd, ?_⟩
      rw [h2, hn2]

theorem nsTeardownOnChange_not_assigned (st : EgressState) (ns : NamespaceEgress) (v : Nat)
    (x : String) (h : ns.assignedIP = "") : nsTeardownOnChange st ns v x = (ns, st) := by
  unfold nsTeardownOnChange
  rw [if_neg (fun hcon => hcon h)]

/-- C4: re-delivering an event with identical content is a no-op on the
watcher state: for every state, running `updateNodeEgress` twice in a row
with the same arguments leaves the state after the second call equal to
the state after the first, and likewise for `updateNamespaceEgress`.
Since the backend-call trace is part of the state, the equality also shows
the second call emits no backend calls (no duplicate allocation, no
duplicate rule installation). -/
theorem C4_redelivery_noop :
    (∀ (st : EgressState) (n : String) (ips : List String),
      updateNodeEgress (updateNodeEgress st n ips) n ips = updateNodeEgress st n ips) ∧
    (∀ (st : EgressState) (v : Nat) (x : String),
      updateNamespaceEgress (updateNamespaceEgress st v x) v x =
        updateNamespaceEgress st v x) := by
  constructor
  · intro st n ips
    by_cases hips : ips = []
    · cases hnode : alookup st.nodesByNodeIP n with
      | none =>
        have h1 := updateNodeEgress_none_nil st n ips hnode hips
        rw [h1, h1]
      | some rec =>
        have hnone : alookup (updateNodeEgress st n ips).nodesByNodeIP n = none := by
          rw [updateNodeEgress_some_nil st n ips rec hnode hips]
          have h0 : alookup ({ st with nodesByNodeIP := aerase st.nodesByNodeIP n }
              : EgressState).nodesByNodeIP n = none := by
            dsimp only
            exact alookup_aerase_self _ n
          rcases foldl_node_assigned_only (processAddedIP n) n
              (fun s i => processAddedIP_node_assigned_only n s i n)
              (setDiff (mkSet ips) rec.requestedIPs)
              { st with nodesByNodeIP := aerase st.nodesByNodeIP n }
              with ha | ⟨node, A, hnd, hrest⟩
          · rcases foldl_node_assigned_only (processRemovedIP n) n
                (fun s i => processRemovedIP_node_assigned_only n s i n)
                (setDiff rec.requestedIPs (mkSet ips)) _
                with hb | ⟨node2, A2, hnd2, hrest2⟩
            · rw [hb, ha]
              exact h0
            · rw [ha, h0] at hnd2
              exact Option.noConfusion hnd2
          · rw [h0] at hnd
            exact Option.noConfusion hnd
        exact updateNodeEgress_none_nil _ n ips hnone hips
    · have hx : ∃ rec', alookup (updateNodeEgress st n ips).nodesByNodeIP n = some rec' ∧
          rec'.requestedIPs = mkSet ips := by
        cases hnode : alookup st.nodesByNodeIP n with
        | none =>
          rw [updateNodeEgress_none_cons st n ips hnode hips]
          have h0 : alookup ({ st with nodesByNodeIP := aset st.nodesByNodeIP n ⟨n, mkSet ips, []⟩ }
              : EgressState).nodesByNodeIP n = some ⟨n, mkSet ips, []⟩ := by
            dsimp only
            exact alookup_aset_self _ n _
          rcases foldl_node_assigned_only (processAddedIP n) n
              (fun s i => processAddedIP_node_assigned_only n s i n)
              (setDiff (mkSet ips) []) _ with ha | ⟨node, A, hnd, hrest⟩ <;>
            rcases foldl_node_assigned_only (processRemovedIP n) n
                (fun s i => processRemovedIP_node_assigned_only n s i n)
                (setDiff [] (mkSet ips)) _ with hb | ⟨node2, A2, hnd2, hrest2⟩
          · rw [hb, ha]
            exact ⟨_, h0, rfl⟩
          · rw [ha, h0] at hnd2
            have := (Option.some.inj hnd2).symm
            subst this
            exact ⟨_, hrest2, rfl⟩
          · rw [h0] at hnd
            have := (Option.some.inj hnd).symm
            subst this
            rw [hb]
            exact ⟨_, hrest, rfl⟩
          · rw [h0] at hnd
            have := (Option.some.inj hnd).symm
            subst this
            rw [hrest] at hnd2
            have := (Option.some.inj hnd2).symm
            subst this
            exact ⟨_, hrest2, rfl⟩
        | some rec =>
          rw [updateNodeEgress_some_cons st n ips rec hnode hips]
          have h0 : alookup
              ({ st with
                  nodesByNodeIP := aset st.nodesByNodeIP n { rec with requestedIPs := mkSet ips } }
                : EgressState).nodesByNodeIP n =
              some { rec with requestedIPs := mkSet ips } := by
            dsimp only
            exact alookup_aset_self _ n _
          rcases foldl_node_assigned_only (processAddedIP n) n
              (fun s i => processAddedIP_node_assigned_only n s i n)
              (setDiff (mkSet ips) rec.requestedIPs) _ with ha | ⟨node, A, hnd, hrest⟩ <;>
            rcases foldl_node_assigned_only (processRemovedIP n) n
                (fun s i => processRemovedIP_node_assigned_only n s i n)
                (setDiff rec.requestedIPs (mkSet ips)) _ with hb | ⟨node2, A2, hnd2, hrest2⟩
          · rw [hb, ha]
            exact ⟨_, h0, rfl⟩
          · rw [ha, h0] at hnd2
            have := (Option.some.inj hnd2).symm
            subst this
            exact ⟨_, hrest2, rfl⟩
          · rw [h0] at hnd
            have := (Option.some.inj hnd).symm
            subst this
            rw [hb]
            exact ⟨_, hrest, rfl⟩
          · rw [h0] at hnd
            have := (Option.some.inj hnd).symm
            subst this
            rw [hrest] at hnd2
            have := (Option.some.inj hnd2).symm
            subst this
            exact ⟨_, hrest2, rfl⟩
      obtain ⟨rec', hlk, hreq⟩ := hx
      rw [updateNodeEgress_some_cons _ n ips rec' hlk hips]
      have he : { rec' with requestedIPs := mkSet ips } = rec' := by
        rw [← hreq]
      rw [he, aset_self _ _ _ hlk, hreq, setDiff_self, List.foldl_nil, List.foldl_nil]
  · intro st v x
    cases hv : alookup st.namespacesByVNID v with
    | none =>
      have hg := getOrCreateNs_none st v hv
      by_cases hx : (⟨v, "", "", ""⟩ : NamespaceEgress).requestedIP = x
      · have h1 := updateNamespaceEgress_noop st _ v x _ hg hx
        have hg2 := getOrCreateNs_some
          { st with namespacesByVNID := aset st.namespacesByVNID v ⟨v, "", "", ""⟩ } v
          ⟨v, "", "", ""⟩ (by dsimp only; exact alookup_aset_self _ v _)
        have h2 := updateNamespaceEgress_noop _ _ v x _ hg2 hx
        rw [h1, h2]
      · cases hcl : alookup ({ st with namespacesByVNID := aset st.namespacesByVNID v ⟨v, "", "", ""⟩ }
            : EgressState).namespacesByEgressIP x with
        | some w =>
          have h1 := updateNamespaceEgress_conflict st _ v x _ w hg hx hcl
          have hg2 := getOrCreateNs_some
            { st with namespacesByVNID := aset st.namespacesByVNID v ⟨v, "", "", ""⟩ } v
            ⟨v, "", "", ""⟩ (by dsimp only; exact alookup_aset_self _ v _)
          have h2 := updateNamespaceEgress_conflict _ _ v x _ w hg2 hx hcl
          rw [h1, h2]
        | none =>
          have h1 := updateNamespaceEgress_main st _ v x _ hg hx hcl
          rw [nsTeardownOnChange_not_assigned _ _ v x rfl] at h1
          obtain ⟨ns', hlk', hreq'⟩ := nsRegister_requested
            { st with namespacesByVNID := aset st.namespacesByVNID v ⟨v, "", "", ""⟩ }
            ⟨v, "", "", ""⟩ v x
          have hg2 := getOrCreateNs_some _ v ns' hlk'
          have h2 := updateNamespaceEgress_noop _ _ v x _ hg2 hreq'
          rw [h1]
          exact h2
    | some ns =>
      have hg := getOrCreateNs_some st v ns hv
      by_cases hx : ns.requestedIP = x
      · have h1 := updateNamespaceEgress_noop st st v x ns hg hx
        rw [h1, h1]
      · cases hcl : alookup st.namespacesByEgressIP x with
        | some w =>
          have h1 := updateNamespaceEgress_conflict st st v x ns w hg hx hcl
          rw [h1, h1]
        | none =>
          have h1 := updateNamespaceEgress_main st st v x ns hg hx hcl
          obtain ⟨ns', hlk', hreq'⟩ := nsRegister_requested
            (nsTeardownOnChange st ns v x).2 (nsTeardownOnChange st ns v x).1 v x
          have hg2 := getOrCreateNs_some _ v ns' hlk'
          have h2 := updateNamespaceEgress_noop _ _ v x _ hg2 hreq'
          rw [h1]
          exact h2

theorem maybeAddEgressIP_no_ns (st : EgressState) (ip : String)
    (h : (alookup st.namespacesByEgressIP ip).bind (alookup st.namespacesByVNID) = none) :
    maybeAddEgressIP st ip = st := by
  unfold maybeAddEgressIP
  rw [h]

theorem maybeAddEgressIP_eq (st : EgressState) (ip : String) (ns : NamespaceEgress)
    (h : (alookup st.namespacesByEgressIP ip).bind (alookup st.namespacesByVNID) = some ns) :
    maybeAddEgressIP st ip =
      maybeAddFinish (maybeAddNodePhase st ip (getMarkForVNID ns.vnid st.masqueradeBit)).2
        ns ip (maybeAddNodePhase st ip (getMarkForVNID ns.vnid st.masqueradeBit)).1
        (getMarkForVNID ns.vnid st.masqueradeBit) := by
  unfold maybeAddEgressIP
  rw [h]

theorem maybeAddNodePhase_no_claim (st : EgressState) (ip m : String)
    (h : alookup st.nodesByEgressIP ip = none) :
    maybeAddNodePhase st ip m = ("", st) := by
  unfold maybeAddNodePhase
  rw [h]

theorem maybeAddNodePhase_remote (st : EgressState) (ip m nkey : String) (node : NodeEgress)
    (hn : alookup st.nodesByEgressIP ip = some nkey)
    (hnode : alookup st.nodesByNodeIP nkey = some node)
    (hmem : ip ∉ node.assignedIPs) (hnl : nkey ≠ st.localIP) :
    maybeAddNodePhase st ip m = (nkey,
      { st with
          nodesByNodeIP := aset st.nodesByNodeIP nkey
            { node with assignedIPs := setInsert node.assignedIPs ip } }) := by
  unfold maybeAddNodePhase
  rw [hn, Option.some_bind, hnode]
  dsimp only
  rw [if_pos hmem, if_neg hnl]

theorem maybeAddNodePhase_local_ok (st : EgressState) (ip m nkey : String) (node : NodeEgress)
    (hn : alookup st.nodesByEgressIP ip = some nkey)
    (hnode : alookup st.nodesByNodeIP nkey = some node)
    (hmem : ip ∉ node.assignedIPs) (hnl : nkey = st.localIP) (hip : ip ≠ st.localIP) :
    maybeAddNodePhase st ip m = (nkey,
      { st with
          nodesByNodeIP := aset st.nodesByNodeIP nkey
            { node with assignedIPs := setInsert node.assignedIPs ip }
          calls := st.calls ++ [BackendCall.claimIP ip] }) := by
  unfold maybeAddNodePhase
  rw [hn, Option.some_bind, hnode]
  dsimp only
  rw [if_pos hmem, if_pos hnl]
  unfold assignEgressIP
  rw [if_neg hip]

theorem maybeAddFinish_changed (st : EgressState) (ns : NamespaceEgress) (ip nodeIP m : String)
    (h : ns.assignedIP ≠ ip ∨ ns.nodeIP ≠ nodeIP) :
    maybeAddFinish st ns ip nodeIP m =
      { st with
          namespacesByVNID := aset st.namespacesByVNID ns.vnid
            { ns with assignedIP := ip, nodeIP := nodeIP }
          calls := st.calls ++ [BackendCall.setEgressViaIP ns.vnid nodeIP m] } := by
  unfold maybeAddFinish
  rw [if_pos h]

theorem maybeAddFinish_unchanged (st : EgressState) (ns : NamespaceEgress) (ip nodeIP m : String)
    (h1 : ns.assignedIP = ip) (h2 : ns.nodeIP = nodeIP) :
    maybeAddFinish st ns ip nodeIP m = st := by
  unfold maybeAddFinish
  rw [if_neg]
  intro hcon
  rcases hcon with hcon | hcon
  · exact hcon h1
  · exact hcon h2

theorem processAddedIP_free (n : String) (st : EgressState) (ip : String)
    (h : alookup st.nodesByEgressIP ip = none) :
    processAddedIP n st ip =
      maybeAddEgressIP { st with nodesByEgressIP := aset st.nodesByEgressIP ip n } ip := by
  unfold processAddedIP
  rw [h]

@[simp]
theorem mkSet_singleton (x : String) : mkSet [x] = [x] := rfl

/-- C5 counterexample: with `n = x = localIP`, the egress IP equals the
node's own primary IP, local assignment fails (`SelfIPConflict`) and the
final `nodeIP` is `""`, not `n`; so the unrestricted claim "yields
`(x, n)`" is false (both orders still agree, on `(x, "")`). -/
theorem C5_counterexample :
    ¬((alookup (updateNamespaceEgress (updateNodeEgress (newEgressIPWatcher "10.0.0.1" 1)
        "10.0.0.1" ["10.0.0.1"]) 7 "10.0.0.1").namespacesByVNID 7).map NamespaceEgress.nodeIP
      = some "10.0.0.1") ∧
    (alookup (updateNamespaceEgress (updateNodeEgress (newEgressIPWatcher "10.0.0.1" 1)
        "10.0.0.1" ["10.0.0.1"]) 7 "10.0.0.1").namespacesByVNID 7).map NamespaceEgress.nodeIP
      = some "" ∧
    (alookup (updateNodeEgress (updateNamespaceEgress (newEgressIPWatcher "10.0.0.1" 1)
        7 "10.0.0.1") "10.0.0.1" ["10.0.0.1"]).namespacesByVNID 7).map NamespaceEgress.nodeIP
      = some "" := by
  refine ⟨?_, by decide, by decide⟩
  decide

/-- C5 (amended): for every node IP `n`, egress IP `x` that is non-empty
and distinct from the watcher's local IP, and VNID `v`, starting from a
state in which none of them is registered, applying
`updateNodeEgress(n, [x])` and `updateNamespaceEgress(v, x)` in either
relative order yields the same final `(assignedIP, nodeIP)` for namespace
`v`, namely `(x, n)`. -/
theorem C5_order_convergence (st : EgressState) (n x : String) (v : Nat)
    (hn : alookup st.nodesByNodeIP n = none)
    (hex : alookup st.nodesByEgressIP x = none)
    (hv : alookup st.namespacesByVNID v = none)
    (hnsx : alookup st.namespacesByEgressIP x = none)
    (hxe : x ≠ "") (hxl : x ≠ st.localIP) :
    (∃ nsA, alookup (updateNamespaceEgress (updateNodeEgress st n [x]) v
        x).namespacesByVNID v = some nsA ∧ nsA.assignedIP = x ∧ nsA.nodeIP = n) ∧
    (∃ nsB, alookup (updateNodeEgress (updateNamespaceEgress st v x) n
        [x]).namespacesByVNID v = some nsB ∧ nsB.assignedIP = x ∧ nsB.nodeIP = n) := by
  constructor
  · -- order A: node event first, then namespace event
    have h1 : updateNodeEgress st n [x] =
        { st with
            nodesByNodeIP := aset st.nodesByNodeIP n ⟨n, [x], []⟩
            nodesByEgressIP := aset st.nodesByEgressIP x n } := by
      rw [updateNodeEgress_none_cons st n [x] hn (by simp)]
      simp only [mkSet_singleton, setDiff_nil_right, setDiff_nil_left,
        List.foldl_cons, List.foldl_nil]
      rw [processAddedIP_free n _ x (by dsimp only; exact hex)]
      rw [maybeAddEgressIP_no_ns _ x (by dsimp only; rw [hnsx]; rfl)]
    rw [h1]
    have hg := getOrCreateNs_none
      { st with
          nodesByNodeIP := aset st.nodesByNodeIP n ⟨n, [x], []⟩
          nodesByEgressIP := aset st.nodesByEgressIP x n } v (by dsimp only; exact hv)
    rw [updateNamespaceEgress_main _ _ v x _ hg (fun h => hxe h.symm)
      (by dsimp only; exact hnsx)]
    rw [nsTeardownOnChange_not_assigned _ _ v x rfl]
    unfold nsRegister
    dsimp only
    rw [maybeAddEgressIP_eq _ x ⟨v, x, "", ""⟩
      (by dsimp only; rw [alookup_aset_self, Option.some_bind, alookup_aset_self])]
    dsimp only
    by_cases hloc : n = st.localIP
    · rw [maybeAddNodePhase_local_ok
        { st with
            nodesByNodeIP := aset st.nodesByNodeIP n ⟨n, [x], []⟩
            nodesByEgressIP := aset st.nodesByEgressIP x n
            namespacesByVNID := aset (aset st.namespacesByVNID v ⟨v, "", "", ""⟩) v ⟨v, x, "", ""⟩
            namespacesByEgressIP := aset st.namespacesByEgressIP x v }
        x (getMarkForVNID v st.masqueradeBit) n ⟨n, [x], []⟩
        (by dsimp only; exact alookup_aset_self _ x n)
        (by dsimp only; exact alookup_aset_self _ n _)
        (List.not_mem_nil x) hloc hxl]
      rw [maybeAddFinish_changed _ _ x n _ (Or.inl (fun h => hxe h.symm))]
      dsimp only
      rw [alookup_aset_self]
      exact ⟨_, rfl, rfl, rfl⟩
    · rw [maybeAddNodePhase_remote
        { st with
            nodesByNodeIP := aset st.nodesByNodeIP n ⟨n, [x], []⟩
            nodesByEgressIP := aset st.nodesByEgressIP x n
            namespacesByVNID := aset (aset st.namespacesByVNID v ⟨v, "", "", ""⟩) v ⟨v, x, "", ""⟩
            namespacesByEgressIP := aset st.namespacesByEgressIP x v }
        x (getMarkForVNID v st.masqueradeBit) n ⟨n, [x], []⟩
        (by dsimp only; exact alookup_aset_self _ x n)
        (by dsimp only; exact alookup_aset_self _ n _)
        (List.not_mem_nil x) hloc]
      rw [maybeAddFinish_changed _ _ x n _ (Or.inl (fun h => hxe h.symm))]
      dsimp only
      rw [alookup_aset_self]
      exact ⟨_, rfl, rfl, rfl⟩
  · -- order B: namespace event first, then node event
    have hg := getOrCreateNs_none st v hv
    have h2 : updateNamespaceEgress st v x =
        { st with
            namespacesByVNID := aset (aset (aset st.namespacesByVNID v ⟨v, "", "", ""⟩) v
              ⟨v, x, "", ""⟩) v ⟨v, x, x, ""⟩
            namespacesByEgressIP := aset st.namespacesByEgressIP x v
            calls := st.calls ++ [BackendCall.setEgressViaIP v ""
              (getMarkForVNID v st.masqueradeBit)] } := by
      rw [updateNamespaceEgress_main st _ v x _ hg (fun h => hxe h.symm)
        (by dsimp only; exact hnsx)]
      rw [nsTeardownOnChange_not_assigned _ _ v x rfl]
      unfold nsRegister
      dsimp only
      rw [maybeAddEgressIP_eq _ x ⟨v, x, "", ""⟩
        (by dsimp only; rw [alookup_aset_self, Option.some_bind, alookup_aset_self])]
      dsimp only
      rw [maybeAddNodePhase_no_claim _ x _ (by dsimp only; exact hex)]
      rw [maybeAddFinish_changed _ _ x "" _ (Or.inl (fun h => hxe h.symm))]
    rw [h2]
    have h3 := updateNodeEgress_none_cons
      { st with
          namespacesByVNID := aset (aset (aset st.namespacesByVNID v ⟨v, "", "", ""⟩) v
            ⟨v, x, "", ""⟩) v ⟨v, x, x, ""⟩
          namespacesByEgressIP := aset st.namespacesByEgressIP x v
          calls := st.calls ++ [BackendCall.setEgressViaIP v ""
            (getMarkForVNID v st.masqueradeBit)] } n [x] (by dsimp only; exact hn) (by simp)
    rw [h3]
    simp only [mkSet_singleton, setDiff_nil_right, setDiff_nil_left,
      List.foldl_cons, List.foldl_nil]
    rw [processAddedIP_free n _ x (by dsimp only; exact hex)]
    dsimp only
    rw [maybeAddEgressIP_eq _ x ⟨v, x, x, ""⟩
      (by dsimp only; rw [alookup_aset_self, Option.some_bind, alookup_aset_self])]
    dsimp only
    by_cases hloc : n = st.localIP
    · rw [maybeAddNodePhase_local_ok
        { st with
            namespacesByVNID := aset (aset (aset st.namespacesByVNID v ⟨v, "", "", ""⟩) v
              ⟨v, x, "", ""⟩) v ⟨v, x, x, ""⟩
            namespacesByEgressIP := aset st.namespacesByEgressIP x v
            calls := st.calls ++ [BackendCall.setEgressViaIP v ""
              (getMarkForVNID v st.masqueradeBit)]
            nodesByNodeIP := aset st.nodesByNodeIP n ⟨n, [x], []⟩
            nodesByEgressIP := aset st.nodesByEgressIP x n }
        x (getMarkForVNID v st.masqueradeBit) n ⟨n, [x], []⟩
        (by dsimp only; exact alookup_aset_self _ x n)
        (by dsimp only; exact alookup_aset_self _ n _)
        (List.not_mem_nil x) hloc hxl]
      by_cases hne : n = ""
      · rw [maybeAddFinish_unchanged _ _ x n _ rfl hne.symm]
        dsimp only
        rw [alookup_aset_self]
        exact ⟨_, rfl, rfl, hne.symm⟩
      · rw [maybeAddFinish_changed _ _ x n _ (Or.inr (fun h => hne h.symm))]
        dsimp only
        rw [alookup_aset_self]
        exact ⟨_, rfl, rfl, rfl⟩
    · rw [maybeAddNodePhase_remote
        { st with
            namespacesByVNID := aset (aset (aset st.namespacesByVNID v ⟨v, "", "", ""⟩) v
              ⟨v, x, "", ""⟩) v ⟨v, x, x, ""⟩
            namespacesByEgressIP := aset st.namespacesByEgressIP x v
            calls := st.calls ++ [BackendCall.setEgressViaIP v ""
              (getMarkForVNID v st.masqueradeBit)]
            nodesByNodeIP := aset st.nodesByNodeIP n ⟨n, [x], []⟩
            nodesByEgressIP := aset st.nodesByEgressIP x n }
        x (getMarkForVNID v st.masqueradeBit) n ⟨n, [x], []⟩
        (by dsimp only; exact alookup_aset_self _ x n)
        (by dsimp only; exact alookup_aset_self _ n _)
        (List.not_mem_nil x) hloc]
      by_cases hne : n = ""
      · rw [maybeAddFinish_unchanged _ _ x n _ rfl hne.symm]
        dsimp only
        rw [alookup_aset_self]
        exact ⟨_, rfl, rfl, hne.symm⟩
      · rw [maybeAddFinish_changed _ _ x n _ (Or.inr (fun h => hne h.symm))]
        dsimp only
        rw [alookup_aset_self]
        exact ⟨_, rfl, rfl, rfl⟩

theorem C5_witness :
    (∃ nsA, alookup (updateNamespaceEgress (updateNodeEgress (newEgressIPWatcher "10.0.0.1" 1)
        "10.0.0.2" ["10.0.0.5"]) 7 "10.0.0.5").namespacesByVNID 7 = some nsA ∧
      nsA.assignedIP = "10.0.0.5" ∧ nsA.nodeIP = "10.0.0.2") ∧
    (∃ nsB, alookup (updateNodeEgress (updateNamespaceEgress (newEgressIPWatcher "10.0.0.1" 1)
        7 "10.0.0.5") "10.0.0.2" ["10.0.0.5"]).namespacesByVNID 7 = some nsB ∧
      nsB.assignedIP = "10.0.0.5" ∧ nsB.nodeIP = "10.0.0.2") :=
  C5_order_convergence (newEgressIPWatcher "10.0.0.1" 1) "10.0.0.2" "10.0.0.5" 7
    rfl rfl rfl rfl (by decide) (by decide)

@[simp]
theorem mem_setDiff (a b : List String) (y : String) :
    y ∈ setDiff a b ↔ y ∈ a ∧ y ∉ b := by
  simp [setDiff]

theorem aerase_of_alookup_none {κ α : Type} [DecidableEq κ] (l : List (κ × α)) (key : κ)
    (h : alookup l key = none) : aerase l key = l := by
  induction l with
  | nil => rfl
  | cons kv rest ih =>
      obtain ⟨k, v⟩ := kv
      by_cases hk : k = key
      · subst hk; simp [alookup] at h
      · simp only [alookup_cons, if_neg hk] at h
        simp [aerase, hk] at ih ⊢
        exact ih h

theorem invClaims_toW (n : String) (todo : List String) (s : EgressState)
    (h : InvClaims s) : InvClaimsW n todo s :=
  fun ip nkey hk => Or.inl (h ip nkey hk)

theorem invClaimsW_nil (n : String) (s : EgressState)
    (h : InvClaimsW n [] s) : InvClaims s := by
  intro ip nkey hk
  rcases h ip nkey hk with h1 | ⟨_, h2⟩
  · exact h1
  · cases h2

theorem invServed_toW (n : String) (todo : List String) (s : EgressState)
    (h : InvServed s) : InvServedW n todo s := by
  intro v ns hns hne
  obtain ⟨h1, h2, h3⟩ := h v ns hns hne
  exact ⟨h1, h2, Or.inl h3⟩

theorem invServedW_nil (n : String) (s : EgressState)
    (h : InvServedW n [] s) : InvServed s := by
  intro v ns hns hne
  obtain ⟨h1, h2, h3⟩ := h v ns hns hne
  rcases h3 with h3 | ⟨_, h4⟩
  · exact ⟨h1, h2, h3⟩
  · cases h4

theorem egressInv_init (localIP : String) (masqueradeBit : Nat) :
    EgressInv (newEgressIPWatcher localIP masqueradeBit) := by
  refine ⟨fun v ns h => ?_, fun ip nkey h => ?_, fun v ns h => ?_⟩ <;>
    simp [newEgressIPWatcher, alookup] at h

theorem maybeAddNodePhase_dead (st : EgressState) (ip m nkey : String)
    (hn : alookup st.nodesByEgressIP ip = some nkey)
    (hnode : alookup st.nodesByNodeIP nkey = none) :
    maybeAddNodePhase st ip m = ("", st) := by
  unfold maybeAddNodePhase
  rw [hn, Option.some_bind, hnode]

theorem maybeAddNodePhase_assigned (st : EgressState) (ip m nkey : String) (node : NodeEgress)
    (hn : alookup st.nodesByEgressIP ip = some nkey)
    (hnode : alookup st.nodesByNodeIP nkey = some node)
    (hmem : ip ∈ node.assignedIPs) :
    maybeAddNodePhase st ip m = ("", st) := by
  unfold maybeAddNodePhase
  rw [hn, Option.some_bind, hnode]
  dsimp only
  rw [if_neg (not_not_intro hmem)]

theorem maybeAddNodePhase_local_err (st : EgressState) (ip m nkey : String) (node : NodeEgress)
    (hn : alookup st.nodesByEgressIP ip = some nkey)
    (hnode : alookup st.nodesByNodeIP nkey = some node)
    (hmem : ip ∉ node.assignedIPs) (hnl : nkey = st.localIP) (hip : ip = st.localIP) :
    maybeAddNodePhase st ip m = ("",
      { st with
          nodesByNodeIP := aset st.nodesByNodeIP nkey
            { node with assignedIPs := setInsert node.assignedIPs ip } }) := by
  unfold maybeAddNodePhase
  rw [hn, Option.some_bind, hnode]
  dsimp only
  rw [if_pos hmem, if_pos hnl]
  unfold assignEgressIP
  rw [if_pos hip]

theorem deleteEgressIP_no_node (st : EgressState) (ip : String)
    (hn : alookup st.nodesByEgressIP ip = none) :
    deleteEgressIP st ip = st := by
  unfold deleteEgressIP
  rw [hn]

theorem deleteEgressIP_no_namespace (st : EgressState) (ip nkey : String)
    (hn : alookup st.nodesByEgressIP ip = some nkey)
    (hb : (alookup st.namespacesByEgressIP ip).bind (alookup st.namespacesByVNID) = none) :
    deleteEgressIP st ip = st := by
  unfold deleteEgressIP
  rw [hn, hb]

theorem deleteEgressIP_eq (st : EgressState) (ip nkey : String) (ns : NamespaceEgress)
    (hn : alookup st.nodesByEgressIP ip = some nkey)
    (hb : (alookup st.namespacesByEgressIP ip).bind (alookup st.namespacesByVNID) = some ns) :
    deleteEgressIP st ip =
      deleteEgressFinish
        (deleteEgressNsClear
          (deleteEgressNodePhase st nkey ip (getMarkForVNID ns.vnid st.masqueradeBit)) ns ip).2
        (deleteEgressNsClear
          (deleteEgressNodePhase st nkey ip (getMarkForVNID ns.vnid st.masqueradeBit)) ns ip).1 := by
  unfold deleteEgressIP
  rw [hn, hb]

theorem deleteEgressNodePhase_spec (st : EgressState) (nkey ip m : String) :
    ∃ nn cs, deleteEgressNodePhase st nkey ip m = { st with nodesByNodeIP := nn, calls := cs } ∧
      ∀ k, alookup nn k = alookup st.nodesByNodeIP k ∨
        (k = nkey ∧ ∃ node, alookup st.nodesByNodeIP nkey = some node ∧
          alookup nn k = some { node with assignedIPs := setDelete node.assignedIPs ip }) := by
  unfold deleteEgressNodePhase
  split
  · obtain ⟨cs, hc⟩ := releaseEgressIP_snd_frame st ip m
    rw [hc]
    dsimp only
    split
    next node heq =>
      refine ⟨_, cs, rfl, fun k => ?_⟩
      by_cases hk : k = nkey
      · subst hk
        exact Or.inr ⟨rfl, node, heq, alookup_aset_self _ _ _⟩
      · exact Or.inl (alookup_aset_ne _ _ _ _ (fun h => hk h.symm))
    next heq =>
      exact ⟨st.nodesByNodeIP, cs, rfl, fun k => Or.inl rfl⟩
  · exact ⟨st.nodesByNodeIP, st.calls, rfl, fun k => Or.inl rfl⟩

theorem deleteEgressNsClear_match (st : EgressState) (ns : NamespaceEgress) (ip : String)
    (h : ns.assignedIP = ip) :
    deleteEgressNsClear st ns ip = ({ ns with assignedIP := "", nodeIP := "" },
      { st with namespacesByVNID := aset st.namespacesByVNID ns.vnid { ns with assignedIP := "", nodeIP := "" } }) := by
  unfold deleteEgressNsClear
  rw [if_pos h]

theorem deleteEgressNsClear_nomatch (st : EgressState) (ns : NamespaceEgress) (ip : String)
    (h : ns.assignedIP ≠ ip) :
    deleteEgressNsClear st ns ip = (ns, st) := by
  unfold deleteEgressNsClear
  rw [if_neg h]

theorem processRemovedIP_owner (n : String) (st : EgressState) (ip : String)
    (h : alookup st.nodesByEgressIP ip = some n) :
    processRemovedIP n st ip =
      { deleteEgressIP st ip with
          nodesByEgressIP := aerase (deleteEgressIP st ip).nodesByEgressIP ip } := by
  unfold processRemovedIP
  rw [if_pos h]

theorem processRemovedIP_skip (n : String) (st : EgressState) (ip : String)
    (h : ¬alookup st.nodesByEgressIP ip = some n) :
    processRemovedIP n st ip = st := by
  unfold processRemovedIP
  rw [if_neg h]

theorem deleteNamespaceEgress_none (st : EgressState) (v : Nat)
    (h : alookup st.namespacesByVNID v = none) :
    deleteNamespaceEgress st v = st := by
  unfold deleteNamespaceEgress
  rw [h]

theorem deleteNamespaceEgress_assigned (st : EgressState) (v : Nat) (ns : NamespaceEgress)
    (h : alookup st.namespacesByVNID v = some ns) (ha : ns.assignedIP ≠ "") :
    deleteNamespaceEgress st v =
      { deleteEgressIP { st with namespacesByVNID := aset st.namespacesByVNID v { ns with requestedIP := "" } } ns.assignedIP with
          namespacesByEgressIP := aerase (deleteEgressIP { st with namespacesByVNID := aset st.namespacesByVNID v { ns with requestedIP := "" } } ns.assignedIP).namespacesByEgressIP ns.assignedIP,
          namespacesByVNID := aerase (deleteEgressIP { st with namespacesByVNID := aset st.namespacesByVNID v { ns with requestedIP := "" } } ns.assignedIP).namespacesByVNID v } := by
  unfold deleteNamespaceEgress
  rw [h]
  dsimp only
  rw [if_pos ha]

theorem deleteNamespaceEgress_unassigned (st : EgressState) (v : Nat) (ns : NamespaceEgress)
    (h : alookup st.namespacesByVNID v = some ns) (ha : ¬ns.assignedIP ≠ "") :
    deleteNamespaceEgress st v =
      { st with namespacesByVNID := aerase st.namespacesByVNID v } := by
  unfold deleteNamespaceEgress
  rw [h]
  dsimp only
  rw [if_neg ha]

theorem nsTeardownOnChange_assigned (st : EgressState) (ns : NamespaceEgress) (v : Nat)
    (x : String) (ha : ns.assignedIP ≠ "") :
    nsTeardownOnChange st ns v x = ({ ns with assignedIP := "", nodeIP := "" },
      { deleteEgressIP st x with
          namespacesByEgressIP := aerase (deleteEgressIP st x).namespacesByEgressIP x,
          namespacesByVNID := aset (deleteEgressIP st x).namespacesByVNID v { ns with assignedIP := "", nodeIP := "" } }) := by
  unfold nsTeardownOnChange
  rw [if_pos ha]

theorem invClaimsW_nodeUpdate (n : String) (todo : List String) (s : EgressState)
    (nkey : String) (node node' : NodeEgress)
    (hnode : alookup s.nodesByNodeIP nkey = some node)
    (hreq : node'.requestedIPs = node.requestedIPs)
    (h : InvClaimsW n todo s) :
    InvClaimsW n todo { s with nodesByNodeIP := aset s.nodesByNodeIP nkey node' } := by
  intro ip k hk
  dsimp only at hk ⊢
  rcases h ip k hk with ⟨nd, hnd, hm⟩ | h2
  · by_cases hkk : k = nkey
    · subst hkk
      rw [hnd] at hnode
      cases hnode
      exact Or.inl ⟨node', by rw [alookup_aset_self], by rw [hreq]; exact hm⟩
    · exact Or.inl ⟨nd, by rw [alookup_aset_ne _ _ _ _ (fun h => hkk h.symm)]; exact hnd, hm⟩
  · exact Or.inr h2

theorem invServedW_nodeUpdate (n : String) (todo : List String) (s : EgressState)
    (nkey : String) (node node' : NodeEgress)
    (hnode : alookup s.nodesByNodeIP nkey = some node)
    (hsub : ∀ y, y ∈ node.assignedIPs → y ∈ node'.assignedIPs)
    (h : InvServedW n todo s) :
    InvServedW n todo { s with nodesByNodeIP := aset s.nodesByNodeIP nkey node' } := by
  intro v ns hns hne
  dsimp only at hns ⊢
  obtain ⟨h1, h2, h3⟩ := h v ns hns hne
  refine ⟨h1, h2, ?_⟩
  rcases h3 with ⟨nd, hnd, hm⟩ | h4
  · by_cases hkk : ns.nodeIP = nkey
    · rw [hkk] at hnd ⊢
      rw [hnd] at hnode
      cases hnode
      exact Or.inl ⟨node', by rw [alookup_aset_self], hsub _ hm⟩
    · exact Or.inl ⟨nd, by rw [alookup_aset_ne _ _ _ _ (fun h => hkk h.symm)]; exact hnd, hm⟩
  · exact Or.inr h4

theorem maybeAddNodePhase_inv (st : EgressState) (ip m n : String) (todo : List String)
    (hK : InvVnidKeys st) (hC : InvClaimsW n todo st) (hS : InvServedW n todo st) :
    InvVnidKeys (maybeAddNodePhase st ip m).2 ∧
    InvClaimsW n todo (maybeAddNodePhase st ip m).2 ∧
    InvServedW n todo (maybeAddNodePhase st ip m).2 ∧
    ((maybeAddNodePhase st ip m).1 = "" ∨
      (alookup (maybeAddNodePhase st ip m).2.nodesByEgressIP ip =
          some (maybeAddNodePhase st ip m).1 ∧
        ∃ node, alookup (maybeAddNodePhase st ip m).2.nodesByNodeIP
            (maybeAddNodePhase st ip m).1 = some node ∧ ip ∈ node.assignedIPs)) := by
  cases hn : alookup st.nodesByEgressIP ip with
  | none =>
    rw [maybeAddNodePhase_no_claim st ip m hn]
    exact ⟨hK, hC, hS, Or.inl rfl⟩
  | some nkey =>
    cases hnode : alookup st.nodesByNodeIP nkey with
    | none =>
      rw [maybeAddNodePhase_dead st ip m nkey hn hnode]
      exact ⟨hK, hC, hS, Or.inl rfl⟩
    | some node =>
      by_cases hmem : ip ∈ node.assignedIPs
      · rw [maybeAddNodePhase_assigned st ip m nkey node hn hnode hmem]
        exact ⟨hK, hC, hS, Or.inl rfl⟩
      · have hCi := invClaimsW_nodeUpdate n todo st nkey node
          { node with assignedIPs := setInsert node.assignedIPs ip } hnode rfl hC
        have hSi := invServedW_nodeUpdate n todo st nkey node
          { node with assignedIPs := setInsert node.assignedIPs ip } hnode
          (fun y hy => by rw [mem_setInsert]; exact Or.inl hy) hS
        by_cases hnl : nkey = st.localIP
        · by_cases hip : ip = st.localIP
          · rw [maybeAddNodePhase_local_err st ip m nkey node hn hnode hmem hnl hip]
            exact ⟨hK, hCi, hSi, Or.inl rfl⟩
          · rw [maybeAddNodePhase_local_ok st ip m nkey node hn hnode hmem hnl hip]
            refine ⟨hK, hCi, hSi, Or.inr ⟨hn, ?_⟩⟩
            dsimp only
            refine ⟨{ node with assignedIPs := setInsert node.assignedIPs ip },
              by rw [alookup_aset_self], ?_⟩
            rw [mem_setInsert]
            exact Or.inr rfl
        · rw [maybeAddNodePhase_remote st ip m nkey node hn hnode hmem hnl]
          refine ⟨hK, hCi, hSi, Or.inr ⟨hn, ?_⟩⟩
          dsimp only
          refine ⟨{ node with assignedIPs := setInsert node.assignedIPs ip },
            by rw [alookup_aset_self], ?_⟩
          rw [mem_setInsert]
          exact Or.inr rfl

theorem maybeAddEgressIP_inv (st : EgressState) (ip n : String) (todo : List String)
    (hK : InvVnidKeys st) (hC : InvClaimsW n todo st) (hS : InvServedW n todo st) :
    InvVnidKeys (maybeAddEgressIP st ip) ∧ InvClaimsW n todo (maybeAddEgressIP st ip) ∧
    InvServedW n todo (maybeAddEgressIP st ip) := by
  cases hb : (alookup st.namespacesByEgressIP ip).bind (alookup st.namespacesByVNID) with
  | none =>
    rw [maybeAddEgressIP_no_ns st ip hb]
    exact ⟨hK, hC, hS⟩
  | some nsw =>
    rw [maybeAddEgressIP_eq st ip nsw hb]
    obtain ⟨w, hw, hw2⟩ := Option.bind_eq_some.mp hb
    have hKw : nsw.vnid = w := hK w nsw hw2
    obtain ⟨hK1, hC1, hS1, hout⟩ := maybeAddNodePhase_inv st ip
      (getMarkForVNID nsw.vnid st.masqueradeBit) n todo hK hC hS
    obtain ⟨nn, cs, hfr⟩ := maybeAddNodePhase_frame st ip
      (getMarkForVNID nsw.vnid st.masqueradeBit)
    by_cases hg : nsw.assignedIP ≠ ip ∨ nsw.nodeIP ≠
        (maybeAddNodePhase st ip (getMarkForVNID nsw.vnid st.masqueradeBit)).1
    · rw [maybeAddFinish_changed _ nsw ip _ _ hg]
      refine ⟨?_, ?_, ?_⟩
      · -- key invariant for the updated namespacesByVNID
        intro v ns hns
        rw [hfr] at hns
        dsimp only at hns
        by_cases hv : v = nsw.vnid
        · subst hv
          rw [alookup_aset_self] at hns
          cases hns
          rfl
        · rw [alookup_aset_ne _ _ _ _ (fun h => hv h.symm)] at hns
          exact hK1 v ns (by rw [hfr]; exact hns)
      · -- claims untouched
        intro ip' k hk
        rw [hfr] at hk
        dsimp only at hk
        exact hC1 ip' k (by rw [hfr]; exact hk)
      · -- served namespaces
        intro v ns hns hne
        rw [hfr] at hns ⊢
        dsimp only at hns ⊢
        by_cases hv : v = nsw.vnid
        · subst hv
          rw [alookup_aset_self] at hns
          cases hns
          dsimp only at hne ⊢
          rcases hout with hout | ⟨ho1, node, ho2, ho3⟩
          · exact absurd hout hne
          · rw [hfr] at ho1 ho2
            dsimp only at ho1 ho2
            refine ⟨by rw [hKw]; exact hw, ho1, Or.inl ⟨node, ho2, ho3⟩⟩
        · rw [alookup_aset_ne _ _ _ _ (fun h => hv h.symm)] at hns
          obtain ⟨h1, h2, h3⟩ := hS1 v ns (by rw [hfr]; exact hns) hne
          rw [hfr] at h1 h2 h3
          dsimp only at h1 h2 h3
          exact ⟨h1, h2, h3⟩
    · rw [maybeAddFinish_unchanged]
      · exact ⟨hK1, hC1, hS1⟩
      · by_contra hcon
        exact hg (Or.inl hcon)
      · by_contra hcon
        exact hg (Or.inr hcon)

theorem deleteEgressIP_inv (st : EgressState) (ip n : String) (todo : List String)
    (hK : InvVnidKeys st) (hC : InvClaimsW n todo st) (hS : InvServedW n todo st) :
    InvVnidKeys (deleteEgressIP st ip) ∧ InvClaimsW n todo (deleteEgressIP st ip) ∧
    InvServedW n todo (deleteEgressIP st ip) ∧
    (∀ v ns, alookup (deleteEgressIP st ip).namespacesByVNID v = some ns →
      ns.nodeIP ≠ "" → ns.assignedIP ≠ ip) := by
  cases hn : alookup st.nodesByEgressIP ip with
  | none =>
    rw [deleteEgressIP_no_node st ip hn]
    refine ⟨hK, hC, hS, ?_⟩
    intro v ns hns hne heq
    obtain ⟨h1, h2, h3⟩ := hS v ns hns hne
    rw [heq, hn] at h2
    exact Option.noConfusion h2
  | some nkey =>
    cases hb : (alookup st.namespacesByEgressIP ip).bind (alookup st.namespacesByVNID) with
    | none =>
      rw [deleteEgressIP_no_namespace st ip nkey hn hb]
      refine ⟨hK, hC, hS, ?_⟩
      intro v ns hns hne heq
      obtain ⟨h1, h2, h3⟩ := hS v ns hns hne
      rw [heq] at h1
      rw [h1, Option.some_bind, hns] at hb
      exact Option.noConfusion hb
    | some nsw =>
      rw [deleteEgressIP_eq st ip nkey nsw hn hb]
      obtain ⟨w, hw, hw2⟩ := Option.bind_eq_some.mp hb
      have hKw : nsw.vnid = w := hK w nsw hw2
      obtain ⟨nn, cs, hfr, hlk⟩ := deleteEgressNodePhase_spec st nkey ip
        (getMarkForVNID nsw.vnid st.masqueradeBit)
      rw [hfr]
      -- claims survive the node phase: requested lists are untouched
      have hCD : ∀ ip' k, alookup st.nodesByEgressIP ip' = some k →
          (∃ node, alookup nn k = some node ∧ ip' ∈ node.requestedIPs) ∨
          (k = n ∧ ip' ∈ todo) := by
        intro ip' k hk
        rcases hC ip' k hk with ⟨nd, hnd, hm⟩ | h2
        · rcases hlk k with he | ⟨hkk, node0, hnode0, he⟩
          · exact Or.inl ⟨nd, by rw [he]; exact hnd, hm⟩
          · subst hkk
            rw [hnd] at hnode0
            cases hnode0
            exact Or.inl ⟨_, he, hm⟩
        · exact Or.inr h2
      -- served namespaces after the node phase: the deleted IP may have lost
      -- its membership in the claimant record
      have hSD : ∀ v ns, alookup st.namespacesByVNID v = some ns → ns.nodeIP ≠ "" →
          alookup st.namespacesByEgressIP ns.assignedIP = some v ∧
          alookup st.nodesByEgressIP ns.assignedIP = some ns.nodeIP ∧
          ((∃ node, alookup nn ns.nodeIP = some node ∧ ns.assignedIP ∈ node.assignedIPs) ∨
            (ns.nodeIP = n ∧ ns.assignedIP ∈ todo) ∨ ns.assignedIP = ip) := by
        intro v ns hns hne
        obtain ⟨h1, h2, h3⟩ := hS v ns hns hne
        refine ⟨h1, h2, ?_⟩
        rcases h3 with ⟨nd, hnd, hm⟩ | h4
        · rcases hlk ns.nodeIP with he | ⟨hkk, node0, hnode0, he⟩
          · exact Or.inl ⟨nd, by rw [he]; exact hnd, hm⟩
          · rw [hkk] at hnd
            rw [hnd] at hnode0
            cases hnode0
            by_cases hyp : ns.assignedIP = ip
            · exact Or.inr (Or.inr hyp)
            · exact Or.inl ⟨_, he, (mem_setDelete _ _ _).mpr ⟨hm, hyp⟩⟩
        · exact Or.inr (Or.inl h4)
      by_cases hcl : nsw.assignedIP = ip
      · rw [deleteEgressNsClear_match _ nsw ip hcl]
        dsimp only
        obtain ⟨cs2, hfin⟩ := deleteEgressFinish_frame
          { st with nodesByNodeIP := nn, calls := cs, namespacesByVNID := aset st.namespacesByVNID nsw.vnid { nsw with assignedIP := "", nodeIP := "" } }
          { nsw with assignedIP := "", nodeIP := "" }
        rw [hfin]
        refine ⟨?_, ?_, ?_, ?_⟩
        · -- key invariant
          intro v ns hns
          dsimp only at hns
          by_cases hv : v = nsw.vnid
          · subst hv
            rw [alookup_aset_self] at hns
            cases hns
            rfl
          · rw [alookup_aset_ne _ _ _ _ (fun h => hv h.symm)] at hns
            exact hK v ns hns
        · -- claims
          intro ip' k hk
          dsimp only at hk ⊢
          exact hCD ip' k hk
        · -- served
          intro v ns hns hne
          dsimp only at hns hne ⊢
          by_cases hv : v = nsw.vnid
          · subst hv
            rw [alookup_aset_self] at hns
            cases hns
            exact absurd rfl hne
          · rw [alookup_aset_ne _ _ _ _ (fun h => hv h.symm)] at hns
            obtain ⟨h1, h2, h3⟩ := hSD v ns hns hne
            refine ⟨h1, h2, ?_⟩
            rcases h3 with h3 | h3 | h3
            · exact Or.inl h3
            · exact Or.inr h3
            · rw [h3, hw] at h1
              cases h1
              rw [hKw] at hv
              exact absurd rfl hv
        · -- no served namespace keeps the deleted IP
          intro v ns hns hne heq
          dsimp only at hns hne heq
          by_cases hv : v = nsw.vnid
          · subst hv
            rw [alookup_aset_self] at hns
            cases hns
            exact hne rfl
          · rw [alookup_aset_ne _ _ _ _ (fun h => hv h.symm)] at hns
            obtain ⟨h1, h2, h3⟩ := hSD v ns hns hne
            rw [heq, hw] at h1
            cases h1
            rw [hKw] at hv
            exact absurd rfl hv
      · rw [deleteEgressNsClear_nomatch _ nsw ip hcl]
        dsimp only
        obtain ⟨cs2, hfin⟩ := deleteEgressFinish_frame
          { st with nodesByNodeIP := nn, calls := cs } nsw
        rw [hfin]
        have hipcontra : ∀ v ns, alookup st.namespacesByVNID v = some ns →
            ns.nodeIP ≠ "" → ns.assignedIP ≠ ip := by
          intro v ns hns hne heq
          obtain ⟨h1, h2, h3⟩ := hS v ns hns hne
          rw [heq, hw] at h1
          cases h1
          rw [hw2] at hns
          cases hns
          exact hcl heq
        refine ⟨?_, ?_, ?_, ?_⟩
        · intro v ns hns
          dsimp only at hns
          exact hK v ns hns
        · intro ip' k hk
          dsimp only at hk ⊢
          exact hCD ip' k hk
        · intro v ns hns hne
          dsimp only at hns hne ⊢
          obtain ⟨h1, h2, h3⟩ := hSD v ns hns hne
          refine ⟨h1, h2, ?_⟩
          rcases h3 with h3 | h3 | h3
          · exact Or.inl h3
          · exact Or.inr h3
          · exact absurd h3 (hipcontra v ns hns hne)
        · intro v ns hns hne
          dsimp only at hns hne
          exact hipcontra v ns hns hne

theorem processAddedIP_taken (n : String) (st : EgressState) (ip k : String)
    (h : alookup st.nodesByEgressIP ip = some k) :
    processAddedIP n st ip = st := by
  unfold processAddedIP
  rw [h]

theorem processAddedIP_inv (st : EgressState) (ip n : String) (todo R : List String)
    (hK : InvVnidKeys st) (hC : InvClaimsW n todo st) (hS : InvServedW n todo st)
    (hrec : ∃ node, alookup st.nodesByNodeIP n = some node ∧ node.requestedIPs = R)
    (hip : ip ∈ R) :
    InvVnidKeys (processAddedIP n st ip) ∧ InvClaimsW n todo (processAddedIP n st ip) ∧
    InvServedW n todo (processAddedIP n st ip) ∧
    (∃ node, alookup (processAddedIP n st ip).nodesByNodeIP n = some node ∧
      node.requestedIPs = R) := by
  cases hfree : alookup st.nodesByEgressIP ip with
  | some k =>
    rw [processAddedIP_taken n st ip k hfree]
    exact ⟨hK, hC, hS, hrec⟩
  | none =>
    rw [processAddedIP_free n st ip hfree]
    have hKR : InvVnidKeys { st with nodesByEgressIP := aset st.nodesByEgressIP ip n } := hK
    have hCR : InvClaimsW n todo { st with nodesByEgressIP := aset st.nodesByEgressIP ip n } := by
      intro ip' k hk
      dsimp only at hk ⊢
      by_cases hi : ip' = ip
      · subst hi
        rw [alookup_aset_self] at hk
        cases hk
        obtain ⟨node, hnode, hreq⟩ := hrec
        exact Or.inl ⟨node, hnode, by rw [hreq]; exact hip⟩
      · rw [alookup_aset_ne _ _ _ _ (fun h => hi h.symm)] at hk
        exact hC ip' k hk
    have hSR : InvServedW n todo { st with nodesByEgressIP := aset st.nodesByEgressIP ip n } := by
      intro v ns hns hne
      dsimp only at hns hne ⊢
      obtain ⟨h1, h2, h3⟩ := hS v ns hns hne
      have hne2 : ns.assignedIP ≠ ip := by
        intro he
        rw [he, hfree] at h2
        exact Option.noConfusion h2
      refine ⟨h1, ?_, h3⟩
      rw [alookup_aset_ne _ _ _ _ (fun h => hne2 h.symm)]
      exact h2
    obtain ⟨hK1, hC1, hS1⟩ := maybeAddEgressIP_inv
      { st with nodesByEgressIP := aset st.nodesByEgressIP ip n } ip n todo hKR hCR hSR
    refine ⟨hK1, hC1, hS1, ?_⟩
    rcases maybeAddEgressIP_nodes_shape
        { st with nodesByEgressIP := aset st.nodesByEgressIP ip n } ip with
      heq | ⟨nkey, node, hnode, heq⟩
    · rw [heq]
      exact hrec
    · rw [heq]
      obtain ⟨nd, hnd, hr⟩ := hrec
      by_cases hn' : n = nkey
      · subst hn'
        dsimp only at hnode
        rw [hnd] at hnode
        cases hnode
        exact ⟨_, alookup_aset_self _ _ _, hr⟩
      · rw [alookup_aset_ne _ _ _ _ (fun h => hn' h.symm)]
        exact ⟨nd, hnd, hr⟩

theorem processRemovedIP_inv (st : EgressState) (ip n : String) (rest : List String)
    (hK : InvVnidKeys st) (hC : InvClaimsW n (ip :: rest) st)
    (hS : InvServedW n (ip :: rest) st) :
    InvVnidKeys (processRemovedIP n st ip) ∧ InvClaimsW n rest (processRemovedIP n st ip) ∧
    InvServedW n rest (processRemovedIP n st ip) := by
  by_cases hg : alookup st.nodesByEgressIP ip = some n
  · rw [processRemovedIP_owner n st ip hg]
    obtain ⟨hK1, hC1, hS1, hout⟩ := deleteEgressIP_inv st ip n (ip :: rest) hK hC hS
    refine ⟨hK1, ?_, ?_⟩
    · intro ip' k hk
      dsimp only at hk ⊢
      by_cases hi : ip' = ip
      · subst hi
        rw [alookup_aerase_self] at hk
        exact Option.noConfusion hk
      · rw [alookup_aerase_ne _ _ _ (fun h => hi h.symm)] at hk
        rcases hC1 ip' k hk with h1 | ⟨hkn, hmem⟩
        · exact Or.inl h1
        · rcases List.mem_cons.mp hmem with heq | hmem
          · exact absurd heq hi
          · exact Or.inr ⟨hkn, hmem⟩
    · intro v ns hns hne
      dsimp only at hns hne ⊢
      obtain ⟨h1, h2, h3⟩ := hS1 v ns hns hne
      have hne2 : ns.assignedIP ≠ ip := hout v ns hns hne
      refine ⟨h1, ?_, ?_⟩
      · rw [alookup_aerase_ne _ _ _ (fun h => hne2 h.symm)]
        exact h2
      · rcases h3 with h3 | ⟨hn', hmem⟩
        · exact Or.inl h3
        · rcases List.mem_cons.mp hmem with heq | hmem
          · exact absurd heq hne2
          · exact Or.inr ⟨hn', hmem⟩
  · rw [processRemovedIP_skip n st ip hg]
    refine ⟨hK, ?_, ?_⟩
    · intro ip' k hk
      rcases hC ip' k hk with h1 | ⟨hkn, hmem⟩
      · exact Or.inl h1
      · rcases List.mem_cons.mp hmem with heq | hmem
        · rw [heq, hkn] at hk
          exact absurd hk hg
        · exact Or.inr ⟨hkn, hmem⟩
    · intro v ns hns hne
      obtain ⟨h1, h2, h3⟩ := hS v ns hns hne
      refine ⟨h1, h2, ?_⟩
      rcases h3 with h3 | ⟨hn', hmem⟩
      · exact Or.inl h3
      · rcases List.mem_cons.mp hmem with heq | hmem
        · rw [heq, hn'] at h2
          exact absurd h2 hg
        · exact Or.inr ⟨hn', hmem⟩

theorem foldl_processRemovedIP_inv (n : String) (L : List String) : ∀ (st : EgressState),
    InvVnidKeys st → InvClaimsW n L st → InvServedW n L st →
    InvVnidKeys (L.foldl (processRemovedIP n) st) ∧
    InvClaims (L.foldl (processRemovedIP n) st) ∧
    InvServed (L.foldl (processRemovedIP n) st) := by
  induction L with
  | nil =>
    intro st hK hC hS
    exact ⟨hK, invClaimsW_nil n st hC, invServedW_nil n st hS⟩
  | cons ip rest ih =>
    intro st hK hC hS
    rw [List.foldl_cons]
    obtain ⟨hK1, hC1, hS1⟩ := processRemovedIP_inv st ip n rest hK hC hS
    exact ih (processRemovedIP n st ip) hK1 hC1 hS1

theorem foldl_processAddedIP_inv (n : String) (todo R : List String) (L : List String) :
    ∀ (st : EgressState), (∀ y ∈ L, y ∈ R) →
    InvVnidKeys st → InvClaimsW n todo st → InvServedW n todo st →
    (∃ node, alookup st.nodesByNodeIP n = some node ∧ node.requestedIPs = R) →
    InvVnidKeys (L.foldl (processAddedIP n) st) ∧
    InvClaimsW n todo (L.foldl (processAddedIP n) st) ∧
    InvServedW n todo (L.foldl (processAddedIP n) st) ∧
    (∃ node, alookup (L.foldl (processAddedIP n) st).nodesByNodeIP n = some node ∧
      node.requestedIPs = R) := by
  induction L with
  | nil =>
    intro st _ hK hC hS hrec
    exact ⟨hK, hC, hS, hrec⟩
  | cons ip rest ih =>
    intro st hL hK hC hS hrec
    rw [List.foldl_cons]
    obtain ⟨hK1, hC1, hS1, hrec1⟩ := processAddedIP_inv st ip n todo R hK hC hS hrec
      (hL ip (List.mem_cons_self ip rest))
    exact ih (processAddedIP n st ip) (fun y hy => hL y (List.mem_cons_of_mem _ hy))
      hK1 hC1 hS1 hrec1

theorem updateNodeEgress_inv (st : EgressState) (n : String) (ips : List String)
    (hInv : EgressInv st) : EgressInv (updateNodeEgress st n ips) := by
  obtain ⟨hK, hC, hS⟩ := hInv
  cases hnode : alookup st.nodesByNodeIP n with
  | none =>
    by_cases hips : ips = []
    · rw [updateNodeEgress_none_nil st n ips hnode hips]
      exact ⟨hK, hC, hS⟩
    · rw [updateNodeEgress_none_cons st n ips hnode hips, setDiff_nil_left, List.foldl_nil]
      have hCA : InvClaimsW n []
          { st with nodesByNodeIP := aset st.nodesByNodeIP n ⟨n, mkSet ips, []⟩ } := by
        intro ip k hk
        dsimp only at hk ⊢
        obtain ⟨nd, hnd, hm⟩ := hC ip k hk
        by_cases hkn : k = n
        · subst hkn
          rw [hnode] at hnd
          exact Option.noConfusion hnd
        · rw [alookup_aset_ne _ _ _ _ (fun h => hkn h.symm)]
          exact Or.inl ⟨nd, hnd, hm⟩
      have hSA : InvServedW n []
          { st with nodesByNodeIP := aset st.nodesByNodeIP n ⟨n, mkSet ips, []⟩ } := by
        intro v ns hns hne
        dsimp only at hns hne ⊢
        obtain ⟨h1, h2, nd, hnd, hm⟩ := hS v ns hns hne
        by_cases hkn : ns.nodeIP = n
        · rw [hkn, hnode] at hnd
          exact absurd hnd (fun h => Option.noConfusion h)
        · rw [alookup_aset_ne _ _ _ _ (fun h => hkn h.symm)]
          exact ⟨h1, h2, Or.inl ⟨nd, hnd, hm⟩⟩
      obtain ⟨hK1, hC1, hS1, _⟩ := foldl_processAddedIP_inv n [] (mkSet ips)
        (setDiff (mkSet ips) [])
        { st with nodesByNodeIP := aset st.nodesByNodeIP n ⟨n, mkSet ips, []⟩ }
        (fun y hy => ((mem_setDiff _ _ _).mp hy).1) hK hCA hSA
        ⟨⟨n, mkSet ips, []⟩, alookup_aset_self _ _ _, rfl⟩
      exact ⟨hK1, invClaimsW_nil n _ hC1, invServedW_nil n _ hS1⟩
  | some node =>
    by_cases hips : ips = []
    · rw [updateNodeEgress_some_nil st n ips node hnode hips, hips, mkSet_nil,
        setDiff_nil_right, setDiff_nil_left, List.foldl_nil]
      have hCD : InvClaimsW n node.requestedIPs
          { st with nodesByNodeIP := aerase st.nodesByNodeIP n } := by
        intro ip k hk
        dsimp only at hk ⊢
        obtain ⟨nd, hnd, hm⟩ := hC ip k hk
        by_cases hkn : k = n
        · subst hkn
          rw [hnode] at hnd
          cases hnd
          exact Or.inr ⟨rfl, hm⟩
        · rw [alookup_aerase_ne _ _ _ (fun h => hkn h.symm)]
          exact Or.inl ⟨nd, hnd, hm⟩
      have hSD : InvServedW n node.requestedIPs
          { st with nodesByNodeIP := aerase st.nodesByNodeIP n } := by
        intro v ns hns hne
        dsimp only at hns hne ⊢
        obtain ⟨h1, h2, nd, hnd, hm⟩ := hS v ns hns hne
        refine ⟨h1, h2, ?_⟩
        by_cases hkn : ns.nodeIP = n
        · refine Or.inr ⟨hkn, ?_⟩
          rw [hkn] at h2
          obtain ⟨nd2, hnd2, hm2⟩ := hC ns.assignedIP n h2
          rw [hnode] at hnd2
          cases hnd2
          exact hm2
        · rw [alookup_aerase_ne _ _ _ (fun h => hkn h.symm)]
          exact Or.inl ⟨nd, hnd, hm⟩
      obtain ⟨hK1, hC1, hS1⟩ := foldl_processRemovedIP_inv n node.requestedIPs
        { st with nodesByNodeIP := aerase st.nodesByNodeIP n } hK hCD hSD
      exact ⟨hK1, hC1, hS1⟩
    · rw [updateNodeEgress_some_cons st n ips node hnode hips]
      have hCU : InvClaimsW n (setDiff node.requestedIPs (mkSet ips))
          { st with nodesByNodeIP := aset st.nodesByNodeIP n { node with requestedIPs := mkSet ips } } := by
        intro ip k hk
        dsimp only at hk ⊢
        obtain ⟨nd, hnd, hm⟩ := hC ip k hk
        by_cases hkn : k = n
        · subst hkn
          rw [hnode] at hnd
          cases hnd
          by_cases hmR : ip ∈ mkSet ips
          · exact Or.inl ⟨_, alookup_aset_self _ _ _, hmR⟩
          · exact Or.inr ⟨rfl, (mem_setDiff _ _ _).mpr ⟨hm, hmR⟩⟩
        · rw [alookup_aset_ne _ _ _ _ (fun h => hkn h.symm)]
          exact Or.inl ⟨nd, hnd, hm⟩
      have hSU : InvServedW n (setDiff node.requestedIPs (mkSet ips))
          { st with nodesByNodeIP := aset st.nodesByNodeIP n { node with requestedIPs := mkSet ips } } := by
        intro v ns hns hne
        dsimp only at hns hne ⊢
        obtain ⟨h1, h2, nd, hnd, hm⟩ := hS v ns hns hne
        refine ⟨h1, h2, ?_⟩
        by_cases hkn : ns.nodeIP = n
        · rw [hkn] at hnd ⊢
          rw [hnode] at hnd
          cases hnd
          exact Or.inl ⟨_, alookup_aset_self _ _ _, hm⟩
        · rw [alookup_aset_ne _ _ _ _ (fun h => hkn h.symm)]
          exact Or.inl ⟨nd, hnd, hm⟩
      obtain ⟨hK1, hC1, hS1, _⟩ := foldl_processAddedIP_inv n
        (setDiff node.requestedIPs (mkSet ips)) (mkSet ips)
        (setDiff (mkSet ips) node.requestedIPs)
        { st with nodesByNodeIP := aset st.nodesByNodeIP n { node with requestedIPs := mkSet ips } }
        (fun y hy => ((mem_setDiff _ _ _).mp hy).1) hK hCU hSU
        ⟨{ node with requestedIPs := mkSet ips }, alookup_aset_self _ _ _, rfl⟩
      obtain ⟨hK2, hC2, hS2⟩ := foldl_processRemovedIP_inv n
        (setDiff node.requestedIPs (mkSet ips)) _ hK1 hC1 hS1
      exact ⟨hK2, hC2, hS2⟩

theorem nsRegister_inv (st : EgressState) (ns : NamespaceEgress) (v : Nat) (x : String)
    (hv : ns.vnid = v) (hlook : alookup st.namespacesByVNID v = some ns)
    (hconf : alookup st.namespacesByEgressIP x = none)
    (hK : InvVnidKeys st) (hC : InvClaims st) (hS : InvServed st) :
    EgressInv (nsRegister st ns v x) := by
  unfold nsRegister
  dsimp only
  have hK2 : InvVnidKeys { st with namespacesByVNID := aset st.namespacesByVNID v { ns with requestedIP := x }, namespacesByEgressIP := aset st.namespacesByEgressIP x v } := by
    intro v' ns' h
    dsimp only at h
    by_cases hv' : v' = v
    · subst hv'
      rw [alookup_aset_self] at h
      cases h
      exact hv
    · rw [alookup_aset_ne _ _ _ _ (fun h2 => hv' h2.symm)] at h
      exact hK v' ns' h
  have hC2 : InvClaims { st with namespacesByVNID := aset st.namespacesByVNID v { ns with requestedIP := x }, namespacesByEgressIP := aset st.namespacesByEgressIP x v } := hC
  have hS2 : InvServed { st with namespacesByVNID := aset st.namespacesByVNID v { ns with requestedIP := x }, namespacesByEgressIP := aset st.namespacesByEgressIP x v } := by
    intro v' ns' h hne
    dsimp only at h hne ⊢
    by_cases hv' : v' = v
    · subst hv'
      rw [alookup_aset_self] at h
      cases h
      dsimp only at hne ⊢
      obtain ⟨h1, h2, h3⟩ := hS _ ns hlook hne
      have hax : ns.assignedIP ≠ x := by
        intro he
        rw [he, hconf] at h1
        exact Option.noConfusion h1
      refine ⟨?_, h2, h3⟩
      rw [alookup_aset_ne _ _ _ _ (fun h2 => hax h2.symm)]
      exact h1
    · rw [alookup_aset_ne _ _ _ _ (fun h2 => hv' h2.symm)] at h
      obtain ⟨h1, h2, h3⟩ := hS v' ns' h hne
      have hax : ns'.assignedIP ≠ x := by
        intro he
        rw [he, hconf] at h1
        exact Option.noConfusion h1
      refine ⟨?_, h2, h3⟩
      rw [alookup_aset_ne _ _ _ _ (fun h2 => hax h2.symm)]
      exact h1
  obtain ⟨hK3, hC3, hS3⟩ := maybeAddEgressIP_inv
    { st with namespacesByVNID := aset st.namespacesByVNID v { ns with requestedIP := x }, namespacesByEgressIP := aset st.namespacesByEgressIP x v }
    x "" [] hK2 (invClaims_toW "" [] _ hC2) (invServed_toW "" [] _ hS2)
  exact ⟨hK3, invClaimsW_nil "" _ hC3, invServedW_nil "" _ hS3⟩

theorem updateNamespaceEgress_post_inv (st st1 : EgressState) (v : Nat) (x : String)
    (ns : NamespaceEgress) (hg : getOrCreateNs st v = (ns, st1)) (hv : ns.vnid = v)
    (hlook : alookup st1.namespacesByVNID v = some ns)
    (hK : InvVnidKeys st1) (hC : InvClaims st1) (hS : InvServed st1) :
    EgressInv (updateNamespaceEgress st v x) := by
  by_cases hreq : ns.requestedIP = x
  · rw [updateNamespaceEgress_noop st st1 v x ns hg hreq]
    exact ⟨hK, hC, hS⟩
  · cases hcf : alookup st1.namespacesByEgressIP x with
    | some w =>
      rw [updateNamespaceEgress_conflict st st1 v x ns w hg hreq hcf]
      exact ⟨hK, hC, hS⟩
    | none =>
      rw [updateNamespaceEgress_main st st1 v x ns hg hreq hcf]
      by_cases ha : ns.assignedIP ≠ ""
      · rw [nsTeardownOnChange_assigned st1 ns v x ha]
        dsimp only
        obtain ⟨hKd, hCd, hSd, hout⟩ := deleteEgressIP_inv st1 x "" [] hK
          (invClaims_toW "" [] _ hC) (invServed_toW "" [] _ hS)
        obtain ⟨nn, nv, cs, hd⟩ := deleteEgressIP_frame st1 x
        rw [hd] at hKd hCd hSd ⊢
        dsimp only
        rw [aerase_of_alookup_none st1.namespacesByEgressIP x hcf]
        refine nsRegister_inv _ _ v x hv ?_ ?_ ?_ ?_ ?_
        · dsimp only
          rw [alookup_aset_self]
        · exact hcf
        · intro v' ns' h
          dsimp only at h
          by_cases hv' : v' = v
          · subst hv'
            rw [alookup_aset_self] at h
            cases h
            exact hv
          · rw [alookup_aset_ne _ _ _ _ (fun h2 => hv' h2.symm)] at h
            exact hKd v' ns' h
        · exact invClaimsW_nil "" _ hCd
        · intro v' ns' h hne
          dsimp only at h hne ⊢
          by_cases hv' : v' = v
          · subst hv'
            rw [alookup_aset_self] at h
            cases h
            exact absurd rfl hne
          · rw [alookup_aset_ne _ _ _ _ (fun h2 => hv' h2.symm)] at h
            obtain ⟨h1, h2, h3⟩ := invServedW_nil "" _ hSd v' ns' h hne
            exact ⟨h1, h2, h3⟩
      · have ha0 : ns.assignedIP = "" := by
          by_contra hcon
          exact ha hcon
        rw [nsTeardownOnChange_not_assigned st1 ns v x ha0]
        dsimp only
        exact nsRegister_inv st1 ns v x hv hlook hcf hK hC hS

theorem updateNamespaceEgress_inv (st : EgressState) (v : Nat) (x : String)
    (hInv : EgressInv st) : EgressInv (updateNamespaceEgress st v x) := by
  obtain ⟨hK, hC, hS⟩ := hInv
  cases hg0 : alookup st.namespacesByVNID v with
  | none =>
    refine updateNamespaceEgress_post_inv st
      { st with namespacesByVNID := aset st.namespacesByVNID v ⟨v, "", "", ""⟩ } v x
      ⟨v, "", "", ""⟩ (getOrCreateNs_none st v hg0) rfl (by dsimp only; rw [alookup_aset_self])
      ?_ hC ?_
    · intro v' ns' h
      dsimp only at h
      by_cases hv' : v' = v
      · subst hv'
        rw [alookup_aset_self] at h
        cases h
        rfl
      · rw [alookup_aset_ne _ _ _ _ (fun h2 => hv' h2.symm)] at h
        exact hK v' ns' h
    · intro v' ns' h hne
      dsimp only at h hne ⊢
      by_cases hv' : v' = v
      · subst hv'
        rw [alookup_aset_self] at h
        cases h
        exact absurd rfl hne
      · rw [alookup_aset_ne _ _ _ _ (fun h2 => hv' h2.symm)] at h
        exact hS v' ns' h hne
  | some ns0 =>
    exact updateNamespaceEgress_post_inv st st v x ns0 (getOrCreateNs_some st v ns0 hg0)
      (hK v ns0 hg0) hg0 hK hC hS

theorem deleteNamespaceEgress_inv (st : EgressState) (v : Nat)
    (hInv : EgressInv st) : EgressInv (deleteNamespaceEgress st v) := by
  obtain ⟨hK, hC, hS⟩ := hInv
  cases hg0 : alookup st.namespacesByVNID v with
  | none =>
    rw [deleteNamespaceEgress_none st v hg0]
    exact ⟨hK, hC, hS⟩
  | some ns =>
    by_cases ha : ns.assignedIP ≠ ""
    · rw [deleteNamespaceEgress_assigned st v ns hg0 ha]
      have hv : ns.vnid = v := hK v ns hg0
      -- invariants after clearing the requestedIP
      have hK1 : InvVnidKeys { st with namespacesByVNID := aset st.namespacesByVNID v { ns with requestedIP := "" } } := by
        intro v' ns' h
        dsimp only at h
        by_cases hv' : v' = v
        · subst hv'
          rw [alookup_aset_self] at h
          cases h
          exact hv
        · rw [alookup_aset_ne _ _ _ _ (fun h2 => hv' h2.symm)] at h
          exact hK v' ns' h
      have hC1 : InvClaims { st with namespacesByVNID := aset st.namespacesByVNID v { ns with requestedIP := "" } } := hC
      have hS1 : InvServed { st with namespacesByVNID := aset st.namespacesByVNID v { ns with requestedIP := "" } } := by
        intro v' ns' h hne
        dsimp only at h hne ⊢
        by_cases hv' : v' = v
        · subst hv'
          rw [alookup_aset_self] at h
          cases h
          dsimp only at hne ⊢
          exact hS _ ns hg0 hne
        · rw [alookup_aset_ne _ _ _ _ (fun h2 => hv' h2.symm)] at h
          exact hS v' ns' h hne
      obtain ⟨hKd, hCd, hSd, hout⟩ := deleteEgressIP_inv
        { st with namespacesByVNID := aset st.namespacesByVNID v { ns with requestedIP := "" } }
        ns.assignedIP "" [] hK1 (invClaims_toW "" [] _ hC1) (invServed_toW "" [] _ hS1)
      have hCd' := invClaimsW_nil "" _ hCd
      have hSd' := invServedW_nil "" _ hSd
      refine ⟨?_, ?_, ?_⟩
      · intro v' ns' h
        dsimp only at h
        by_cases hv' : v' = v
        · subst hv'
          rw [alookup_aerase_self] at h
          exact Option.noConfusion h
        · rw [alookup_aerase_ne _ _ _ (fun h2 => hv' h2.symm)] at h
          exact hKd v' ns' h
      · intro ip' k hk
        dsimp only at hk ⊢
        exact hCd' ip' k hk
      · intro v' ns' h hne
        dsimp only at h hne ⊢
        by_cases hv' : v' = v
        · subst hv'
          rw [alookup_aerase_self] at h
          exact Option.noConfusion h
        · rw [alookup_aerase_ne _ _ _ (fun h2 => hv' h2.symm)] at h
          obtain ⟨h1, h2, h3⟩ := hSd' v' ns' h hne
          have hax : ns'.assignedIP ≠ ns.assignedIP := hout v' ns' h hne
          refine ⟨?_, h2, h3⟩
          rw [alookup_aerase_ne _ _ _ (fun h2 => hax h2.symm)]
          exact h1
    · have ha0 : ¬ns.assignedIP ≠ "" := ha
      rw [deleteNamespaceEgress_unassigned st v ns hg0 ha0]
      refine ⟨?_, hC, ?_⟩
      · intro v' ns' h
        dsimp only at h
        by_cases hv' : v' = v
        · subst hv'
          rw [alookup_aerase_self] at h
          exact Option.noConfusion h
        · rw [alookup_aerase_ne _ _ _ (fun h2 => hv' h2.symm)] at h
          exact hK v' ns' h
      · intro v' ns' h hne
        dsimp only at h hne ⊢
        by_cases hv' : v' = v
        · subst hv'
          rw [alookup_aerase_self] at h
          exact Option.noConfusion h
        · rw [alookup_aerase_ne _ _ _ (fun h2 => hv' h2.symm)] at h
          exact hS v' ns' h hne

theorem egressReachable_inv (st : EgressState) (h : EgressReachable st) : EgressInv st := by
  induction h with
  | init l m => exact egressInv_init l m
  | nodeEvent st h n ips ih => exact updateNodeEgress_inv st n ips ih
  | nsUpdate st h v x ih => exact updateNamespaceEgress_inv st v x ih
  | nsDelete st h v ih => exact deleteNamespaceEgress_inv st v ih

theorem updateNamespaceEgress_unclaimed (st : EgressState) (v : Nat) (x : String)
    (hv : alookup st.namespacesByVNID v = none)
    (hns : alookup st.namespacesByEgressIP x = none)
    (hnode : alookup st.nodesByEgressIP x = none)
    (hxe : x ≠ "") :
    alookup (updateNamespaceEgress st v x).namespacesByVNID v = some ⟨v, x, x, ""⟩ ∧
    (updateNamespaceEgress st v x).calls =
      st.calls ++ [BackendCall.setEgressViaIP v "" (getMarkForVNID v st.masqueradeBit)] := by
  have hg := getOrCreateNs_none st v hv
  have hreq : (⟨v, "", "", ""⟩ : NamespaceEgress).requestedIP ≠ x := fun h => hxe h.symm
  have hcf : alookup ({ st with namespacesByVNID := aset st.namespacesByVNID v ⟨v, "", "", ""⟩ } : EgressState).namespacesByEgressIP x = none := hns
  rw [updateNamespaceEgress_main st _ v x ⟨v, "", "", ""⟩ hg hreq hcf,
    nsTeardownOnChange_not_assigned _ _ v x rfl]
  dsimp only
  unfold nsRegister
  dsimp only
  rw [maybeAddEgressIP_eq _ x ⟨v, x, "", ""⟩
    (by dsimp only; rw [alookup_aset_self, Option.some_bind, alookup_aset_self])]
  rw [maybeAddNodePhase_no_claim
    { st with namespacesByVNID := aset (aset st.namespacesByVNID v ⟨v, "", "", ""⟩) v ⟨v, x, "", ""⟩, namespacesByEgressIP := aset st.namespacesByEgressIP x v }
    x _ hnode]
  dsimp only
  rw [maybeAddFinish_changed
    { st with namespacesByVNID := aset (aset st.namespacesByVNID v ⟨v, "", "", ""⟩) v ⟨v, x, "", ""⟩, namespacesByEgressIP := aset st.namespacesByEgressIP x v }
    ⟨v, x, "", ""⟩ x "" _ (Or.inl (fun h => hxe h.symm))]
  dsimp only
  constructor
  · rw [alookup_aset_self]
  · rfl

/-- C1 counterexample: on a fresh watcher, `updateNamespaceEgress(7, "10.0.0.9")`
with no node registered at all leaves the namespace with
`assignedIP = "10.0.0.9"` (non-empty) even though `nodesByEgressIP` is empty,
refuting both the claimed invariant (which ties a non-empty `assignedIP` to a
claiming node) and the scenario's "assignedIP remains empty". -/
theorem C1_counterexample :
    (updateNamespaceEgress (newEgressIPWatcher "10.0.0.1" 1) 7 "10.0.0.9").nodesByEgressIP
      = [] ∧
    alookup (updateNamespaceEgress (newEgressIPWatcher "10.0.0.1" 1) 7
        "10.0.0.9").namespacesByVNID 7 = some ⟨7, "10.0.0.9", "10.0.0.9", ""⟩ := by
  decide

/-- C1 (amended): on every reachable watcher state, it is the recorded
`nodeIP` (not `assignedIP`) that certifies a backing node: whenever a
namespace's `nodeIP` is non-empty, some node record both requested and was
assigned the namespace's `assignedIP`.  And in the claim's scenario — a
namespace requests an IP that no node has claimed — `nodeIP` stays empty
while `assignedIP` is set to the requested IP, and the only rule installed
is `SetNamespaceEgressViaEgressIP(vnid, "", mark)`, whose empty `nodeIP`
realizes the "dropped" behavior. -/
theorem C1_served_namespace_backed (st : EgressState) (hst : EgressReachable st)
    (v : Nat) (ns : NamespaceEgress)
    (hns : alookup st.namespacesByVNID v = some ns) (hne : ns.nodeIP ≠ "") :
    (∃ node, alookup st.nodesByNodeIP ns.nodeIP = some node ∧
      ns.assignedIP ∈ node.requestedIPs ∧ ns.assignedIP ∈ node.assignedIPs) ∧
    (∀ v' x, alookup st.namespacesByVNID v' = none →
      alookup st.namespacesByEgressIP x = none →
      alookup st.nodesByEgressIP x = none → x ≠ "" →
      alookup (updateNamespaceEgress st v' x).namespacesByVNID v' = some ⟨v', x, x, ""⟩ ∧
      (updateNamespaceEgress st v' x).calls =
        st.calls ++ [BackendCall.setEgressViaIP v' "" (getMarkForVNID v' st.masqueradeBit)]) := by
  constructor
  · obtain ⟨hK, hC, hS⟩ := egressReachable_inv st hst
    obtain ⟨h1, h2, node, hnode, hmA⟩ := hS v ns hns hne
    obtain ⟨node2, hnode2, hmR⟩ := hC ns.assignedIP ns.nodeIP h2
    rw [hnode] at hnode2
    cases hnode2
    exact ⟨node, hnode, hmR, hmA⟩
  · exact fun v' x h1 h2 h3 h4 => updateNamespaceEgress_unclaimed st v' x h1 h2 h3 h4

theorem C1_witness :
    (∃ node, alookup (updateNamespaceEgress (updateNodeEgress
        (newEgressIPWatcher "10.0.0.1" 1) "10.0.0.2" ["10.0.0.5"]) 7
        "10.0.0.5").nodesByNodeIP "10.0.0.2" = some node ∧
      "10.0.0.5" ∈ node.requestedIPs ∧ "10.0.0.5" ∈ node.assignedIPs) ∧
    (alookup (updateNamespaceEgress (updateNamespaceEgress (updateNodeEgress
        (newEgressIPWatcher "10.0.0.1" 1) "10.0.0.2" ["10.0.0.5"]) 7 "10.0.0.5") 8
        "10.0.0.9").namespacesByVNID 8 = some ⟨8, "10.0.0.9", "10.0.0.9", ""⟩ ∧
      (updateNamespaceEgress (updateNamespaceEgress (updateNodeEgress
        (newEgressIPWatcher "10.0.0.1" 1) "10.0.0.2" ["10.0.0.5"]) 7 "10.0.0.5") 8
        "10.0.0.9").calls =
      (updateNamespaceEgress (updateNodeEgress (newEgressIPWatcher "10.0.0.1" 1)
        "10.0.0.2" ["10.0.0.5"]) 7 "10.0.0.5").calls ++
        [BackendCall.setEgressViaIP 8 "" (getMarkForVNID 8 1)]) := by
  have h := C1_served_namespace_backed
    (updateNamespaceEgress (updateNodeEgress (newEgressIPWatcher "10.0.0.1" 1)
      "10.0.0.2" ["10.0.0.5"]) 7 "10.0.0.5")
    (EgressReachable.nsUpdate _ (EgressReachable.nodeEvent _
      (EgressReachable.init "10.0.0.1" 1) "10.0.0.2" ["10.0.0.5"]) 7 "10.0.0.5")
    7 ⟨7, "10.0.0.5", "10.0.0.5", "10.0.0.2"⟩ (by decide) (by decide)
  exact ⟨h.1, h.2 8 "10.0.0.9" (by decide) (by decide) (by decide) (by decide)⟩
